import Mathlib

/-!
Verification of the acme-suite-js core (AcmeClient, JWebClient) against its
natural-language specification.

The JavaScript sources are shallowly embedded:

* JavaScript strings that flow into JSON serialization are modelled as byte
  lists (the UTF-8 bytes of the string), so JSON.stringify followed by
  Buffer(..., utf8) is one serialization function from JSON values to bytes.
* JSON values are the inductive type Acme.Json below; undefined is Option.none.
* The HTTPS transport is modelled by scripts: lists of server responses
  consumed in the order the client issues requests, mirroring the
  continuation-passing control flow of the source.
* Library calls that live outside the repository (sha256 of the crypto
  module, the RS256 signer of the jwa module) are abstract function
  parameters; base64url (the base64url npm package) is modelled concretely
  since claims compute with it.
-/

namespace Acme

/-- The UTF-8 bytes of an ASCII Lean string, used to write byte strings of the
model readably. -/
def asciiBytes (s : String) : List Nat :=
  s.data.map Char.toNat

/-- JSON values as produced by JSON.parse and consumed by JSON.stringify in the
source. Strings are byte lists (UTF-8 bytes of the JavaScript string); object
fields keep insertion order, which JSON.stringify respects. -/
inductive Json where
  | null : Json
  | bool (b : Bool) : Json
  | num (n : Int) : Json
  | str (s : List Nat) : Json
  | arr (elems : List Json) : Json
  | obj (fields : List (List Nat × Json)) : Json
deriving Repr

/-- Property access on a JSON value, as in JavaScript obj.field: none models
undefined (missing field or non-object receiver). -/
def Json.get (key : List Nat) : Json → Option Json
  | .obj fields => (fields.find? (fun kv => kv.1 == key)).map (·.2)
  | _ => none

/-- The JavaScript instanceof Object test on a parsed JSON value: true exactly
for objects and arrays. -/
def Json.isObj : Json → Bool
  | .arr _ => true
  | .obj _ => true
  | _ => false

/-- ASCII hex digit (lowercase letters), as used in JSON \u escapes. -/
def hexDigitByte (n : Nat) : Nat :=
  if n < 10 then 48 + n else 87 + n

/-- JSON.stringify escaping of one string byte: quote and backslash get a
backslash escape, the named control escapes are used for 8, 9, 10, 12, 13,
other bytes below 32 become a \u00XX escape, and everything else is emitted
literally. -/
def escapeByte (b : Nat) : List Nat :=
  if b = 34 then [92, 34]
  else if b = 92 then [92, 92]
  else if b = 8 then [92, 98]
  else if b = 9 then [92, 116]
  else if b = 10 then [92, 110]
  else if b = 12 then [92, 102]
  else if b = 13 then [92, 114]
  else if b < 32 then [92, 117, 48, 48, hexDigitByte (b / 16), hexDigitByte (b % 16)]
  else [b]

/-- Serialization of a JSON string body (without the surrounding quotes). -/
def serStrBody (s : List Nat) : List Nat :=
  (s.map escapeByte).flatten

/-- Serialization of a JSON string, quotes included (byte 34). -/
def serStr (s : List Nat) : List Nat :=
  34 :: serStrBody s ++ [34]

/-- Decimal ASCII digits of a natural number, most significant first. -/
def natDigits (n : Nat) : List Nat :=
  if h : n < 10 then [48 + n]
  else natDigits (n / 10) ++ [48 + n % 10]
decreasing_by exact Nat.div_lt_self (by omega) (by omega)

/-- Serialization of a JSON integer (the only numbers this client emits). -/
def serNum (n : Int) : List Nat :=
  if n < 0 then 45 :: natDigits (-n).toNat else natDigits n.toNat

mutual

/-- JSON.stringify on the Json model, producing the UTF-8 bytes of the
JavaScript result string. Array brackets are bytes 91 and 93, object braces
bytes 123 and 125, comma 44, colon 58. -/
def Json.ser : Json → List Nat
  | .null => asciiBytes "null"
  | .bool true => asciiBytes "true"
  | .bool false => asciiBytes "false"
  | .num n => serNum n
  | .str s => serStr s
  | .arr [] => [91, 93]
  | .arr (x :: xs) => 91 :: (Json.ser x ++ serArrTail xs) ++ [93]
  | .obj [] => [123, 125]
  | .obj (f :: fs) => 123 :: (serField f ++ serObjTail fs) ++ [125]

/-- Serialization of the remaining array elements, each preceded by a comma. -/
def serArrTail : List Json → List Nat
  | [] => []
  | x :: xs => 44 :: Json.ser x ++ serArrTail xs

/-- Serialization of one object field: quoted key, colon, value. -/
def serField : List Nat × Json → List Nat
  | (k, v) => serStr k ++ 58 :: Json.ser v

/-- Serialization of the remaining object fields, each preceded by a comma. -/
def serObjTail : List (List Nat × Json) → List Nat
  | [] => []
  | f :: fs => 44 :: serField f ++ serObjTail fs

end

/-! ### A JSON parser, inverse to Json.ser

The spec states round-trip properties: decoding the base64url parts of a JWS
token yields the original payload and header. The parser below is the decoding
function those claims are stated with. It is fueled; fuelNeed bounds the fuel
a serialized value requires. -/

/-- ASCII decimal digit test. -/
def isDigitByte (b : Nat) : Bool :=
  48 ≤ b && b ≤ 57

/-- Value of a hex digit byte (0-9, a-f, A-F). -/
def hexVal (b : Nat) : Option Nat :=
  if 48 ≤ b && b ≤ 57 then some (b - 48)
  else if 97 ≤ b && b ≤ 102 then some (b - 87)
  else if 65 ≤ b && b ≤ 70 then some (b - 55)
  else none

/-- Parse a JSON string body up to (and consuming) the closing quote,
understanding the escapes Json.ser emits. -/
def parseStrBody : List Nat → Option (List Nat × List Nat)
  | [] => none
  | b :: rest =>
    if b = 34 then some ([], rest)
    else if b = 92 then
      match rest with
      | [] => none
      | e :: r =>
        if e = 34 then (parseStrBody r).map (fun p => (34 :: p.1, p.2))
        else if e = 92 then (parseStrBody r).map (fun p => (92 :: p.1, p.2))
        else if e = 98 then (parseStrBody r).map (fun p => (8 :: p.1, p.2))
        else if e = 116 then (parseStrBody r).map (fun p => (9 :: p.1, p.2))
        else if e = 110 then (parseStrBody r).map (fun p => (10 :: p.1, p.2))
        else if e = 102 then (parseStrBody r).map (fun p => (12 :: p.1, p.2))
        else if e = 114 then (parseStrBody r).map (fun p => (13 :: p.1, p.2))
        else if e = 117 then
          match r with
          | h1 :: h2 :: h3 :: h4 :: r2 =>
            match hexVal h1, hexVal h2, hexVal h3, hexVal h4 with
            | some v1, some v2, some v3, some v4 =>
              (parseStrBody r2).map
                (fun p => ((((v1 * 16 + v2) * 16 + v3) * 16 + v4) :: p.1, p.2))
            | _, _, _, _ => none
          | _ => none
        else none
    else (parseStrBody rest).map (fun p => (b :: p.1, p.2))

/-- Accumulating decimal-digit scanner: consumes leading digits. -/
def parseDigitsAux (acc : Nat) : List Nat → Nat × List Nat
  | [] => (acc, [])
  | b :: rest =>
    if isDigitByte b then parseDigitsAux (acc * 10 + (b - 48)) rest
    else (acc, b :: rest)

/-- Parse a JSON integer: optional minus sign, then at least one digit. -/
def parseNum : List Nat → Option (Int × List Nat)
  | [] => none
  | b :: rest =>
    if b = 45 then
      if (rest.head?.map isDigitByte).getD false then
        let p := parseDigitsAux 0 rest
        some (-(p.1 : Int), p.2)
      else none
    else if isDigitByte b then
      let p := parseDigitsAux 0 (b :: rest)
      some ((p.1 : Int), p.2)
    else none

mutual

/-- Fueled JSON parser returning the value and the unconsumed tail. -/
def parseJson : Nat → List Nat → Option (Json × List Nat)
  | 0, _ => none
  | _ + 1, [] => none
  | fuel + 1, b :: rest =>
    if b = 110 then
      if rest.take 3 = [117, 108, 108] then some (.null, rest.drop 3) else none
    else if b = 116 then
      if rest.take 3 = [114, 117, 101] then some (.bool true, rest.drop 3) else none
    else if b = 102 then
      if rest.take 4 = [97, 108, 115, 101] then some (.bool false, rest.drop 4) else none
    else if b = 34 then (parseStrBody rest).map (fun p => (.str p.1, p.2))
    else if b = 91 then
      if rest.head? = some 93 then some (.arr [], rest.tail)
      else
        match parseJson fuel rest with
        | some (v, r) =>
          (parseArrTail fuel r).map (fun p => (.arr (v :: p.1), p.2))
        | none => none
    else if b = 123 then
      if rest.head? = some 125 then some (.obj [], rest.tail)
      else
        match parseObjField fuel rest with
        | some (f, r) =>
          (parseObjTail fuel r).map (fun p => (.obj (f :: p.1), p.2))
        | none => none
    else if b = 45 || isDigitByte b then
      (parseNum (b :: rest)).map (fun p => (.num p.1, p.2))
    else none

/-- Parse one object field: quoted key, colon, value. -/
def parseObjField : Nat → List Nat → Option ((List Nat × Json) × List Nat)
  | 0, _ => none
  | fuel + 1, l =>
    match l with
    | [] => none
    | b :: r =>
      if b = 34 then
        match parseStrBody r with
        | some (k, rr) =>
          match rr with
          | [] => none
          | c :: r2 =>
            if c = 58 then (parseJson fuel r2).map (fun p => ((k, p.1), p.2))
            else none
        | none => none
      else none

/-- Parse the rest of an array: comma-separated elements up to the closing
bracket. -/
def parseArrTail : Nat → List Nat → Option (List Json × List Nat)
  | 0, _ => none
  | fuel + 1, l =>
    match l with
    | [] => none
    | b :: r =>
      if b = 93 then some ([], r)
      else if b = 44 then
        match parseJson fuel r with
        | some (v, r2) => (parseArrTail fuel r2).map (fun p => (v :: p.1, p.2))
        | none => none
      else none

/-- Parse the rest of an object: comma-separated fields up to the closing
brace. -/
def parseObjTail : Nat → List Nat → Option (List (List Nat × Json) × List Nat)
  | 0, _ => none
  | fuel + 1, l =>
    match l with
    | [] => none
    | b :: r =>
      if b = 125 then some ([], r)
      else if b = 44 then
        match parseObjField fuel r with
        | some (f, r2) => (parseObjTail fuel r2).map (fun p => (f :: p.1, p.2))
        | none => none
      else none

end

mutual

/-- Fuel sufficient for parseJson to reparse the serialization of a value. -/
def Json.fuelNeed : Json → Nat
  | .null => 1
  | .bool _ => 1
  | .num _ => 1
  | .str _ => 1
  | .arr l => 1 + listFuel l
  | .obj fs => 1 + fieldsFuel fs

/-- Fuel for the tail of an array. -/
def listFuel : List Json → Nat
  | [] => 1
  | x :: xs => 1 + max x.fuelNeed (listFuel xs)

/-- Fuel for the tail of an object. -/
def fieldsFuel : List (List Nat × Json) → Nat
  | [] => 1
  | f :: fs => 1 + max (1 + f.2.fuelNeed) (fieldsFuel fs)

end

/-- Complete decode: parse with fuel derived from the input length and require
the whole input to be consumed. -/
def decodeJson (l : List Nat) : Option Json :=
  match parseJson (l.length + 1) l with
  | some (v, []) => some v
  | _ => none

/-! ### Round trip: parsing a serialized JSON value returns it -/

/-- True when the input does not begin with a decimal digit, so a preceding
number literal cannot be extended by it. -/
def noDigitHead : List Nat → Bool
  | [] => true
  | b :: _ => !isDigitByte b

theorem hexVal_hexDigitByte (x : Nat) (hx : x < 16) :
    hexVal (hexDigitByte x) = some x := by
  interval_cases x <;> rfl

theorem parseStrBody_ser (s : List Nat) (rest : List Nat) :
    parseStrBody (serStrBody s ++ 34 :: rest) = some (s, rest) := by
  induction s with
  | nil =>
    unfold parseStrBody
    simp [serStrBody]
  | cons b s ih =>
    have hsb : serStrBody (b :: s) = escapeByte b ++ serStrBody s := by
      simp [serStrBody]
    rw [hsb, List.append_assoc]
    unfold escapeByte
    split_ifs with h1 h2 h3 h4 h5 h6 h7 h8
    · subst h1; unfold parseStrBody; simp [ih]
    · subst h2; unfold parseStrBody; simp [ih]
    · subst h3; unfold parseStrBody; simp [ih]
    · subst h4; unfold parseStrBody; simp [ih]
    · subst h5; unfold parseStrBody; simp [ih]
    · subst h6; unfold parseStrBody; simp [ih]
    · subst h7; unfold parseStrBody; simp [ih]
    · have hv1 : hexVal (hexDigitByte (b / 16)) = some (b / 16) :=
        hexVal_hexDigitByte _ (by omega)
      have hv2 : hexVal (hexDigitByte (b % 16)) = some (b % 16) :=
        hexVal_hexDigitByte _ (by omega)
      have hb : ((0 * 16 + 0) * 16 + b / 16) * 16 + b % 16 = b := by omega
      have hb2 : b / 16 * 16 + b % 16 = b := by omega
      unfold parseStrBody
      simp [hv1, hv2, hb, hb2, ih, show hexVal 48 = some 0 from rfl]
    · unfold parseStrBody
      simp [h1, h2, ih]

theorem natDigits_cons (n : Nat) :
    ∃ d t, natDigits n = d :: t ∧ 48 ≤ d ∧ d ≤ 57 ∧
      ∀ b ∈ natDigits n, 48 ≤ b ∧ b ≤ 57 := by
  induction n using Nat.strong_induction_on with
  | _ n ih =>
    by_cases h : n < 10
    · refine ⟨48 + n, [], ?_, by omega, by omega, ?_⟩
      · rw [natDigits]; simp [h]
      · rw [natDigits]; simp [h]; omega
    · obtain ⟨d, t, hd, hd1, hd2, hall⟩ := ih (n / 10) (Nat.div_lt_self (by omega) (by omega))
      have heq : natDigits n = natDigits (n / 10) ++ [48 + n % 10] := by
        rw [natDigits]; simp [h]
      refine ⟨d, t ++ [48 + n % 10], ?_, hd1, hd2, ?_⟩
      · rw [heq, hd]; simp
      · rw [heq]
        intro b hb
        rcases List.mem_append.mp hb with hb | hb
        · exact hall b hb
        · simp at hb; omega

theorem parseDigitsAux_stop (acc : Nat) (l : List Nat) (h : noDigitHead l = true) :
    parseDigitsAux acc l = (acc, l) := by
  cases l with
  | nil => rfl
  | cons b t =>
    simp [noDigitHead] at h
    simp [parseDigitsAux, h]

theorem parseDigitsAux_append (n : Nat) :
    ∀ acc rest, parseDigitsAux acc (natDigits n ++ rest) =
      parseDigitsAux (acc * 10 ^ (natDigits n).length + n) rest := by
  induction n using Nat.strong_induction_on with
  | _ n ih =>
    intro acc rest
    by_cases h : n < 10
    · have heq : natDigits n = [48 + n] := by rw [natDigits]; simp [h]
      have hdig : isDigitByte (48 + n) = true := by simp [isDigitByte]; omega
      rw [heq]
      simp only [List.singleton_append, List.length_singleton, parseDigitsAux, hdig, if_true]
      have harith : acc * 10 + (48 + n - 48) = acc * 10 ^ 1 + n := by
        rw [pow_one]; omega
      rw [harith]
      rfl
    · have heq : natDigits n = natDigits (n / 10) ++ [48 + n % 10] := by
        rw [natDigits]; simp [h]
      have hdig : isDigitByte (48 + n % 10) = true := by
        simp [isDigitByte]; omega
      have hlen : (natDigits n).length = (natDigits (n / 10)).length + 1 := by
        rw [heq]; simp
      rw [heq, List.append_assoc, ih (n / 10) (Nat.div_lt_self (by omega) (by omega))]
      simp only [List.singleton_append, parseDigitsAux, hdig, if_true]
      have hps : acc * 10 ^ ((natDigits (n / 10)).length + 1)
          = acc * 10 ^ (natDigits (n / 10)).length * 10 := by
        rw [pow_succ, ← Nat.mul_assoc]
      rw [← heq, hlen, hps]
      generalize acc * 10 ^ (natDigits (n / 10)).length = m
      have harith : (m + n / 10) * 10 + (48 + n % 10 - 48) = m * 10 + n := by omega
      rw [harith]
      rfl

theorem parseNum_ser (n : Int) (rest : List Nat) (h : noDigitHead rest = true) :
    parseNum (serNum n ++ rest) = some (n, rest) := by
  obtain ⟨d, t, hd, hd1, hd2, _⟩ := natDigits_cons n.natAbs
  have hdig : isDigitByte d = true := by simp [isDigitByte]; omega
  by_cases hn : n < 0
  · have habs : (-n).toNat = n.natAbs := by omega
    have hser : serNum n = 45 :: natDigits n.natAbs := by
      rw [serNum, if_pos hn, habs]
    have hx : natDigits n.natAbs ++ rest = d :: (t ++ rest) := by rw [hd]; simp
    rw [hser, List.cons_append, hx]
    simp only [parseNum, if_pos rfl, List.head?_cons, Option.map_some, hdig,
      Option.getD_some, if_true]
    rw [← hx, parseDigitsAux_append, parseDigitsAux_stop _ _ h]
    have hif : (Option.map isDigitByte (some d)).getD false = true := by simp [hdig]
    rw [hif]
    simp only [Nat.zero_mul, Nat.zero_add, if_true, Option.some.injEq, Prod.mk.injEq, and_true]
    omega
  · have habs : n.toNat = n.natAbs := by omega
    have hser : serNum n = natDigits n.natAbs := by
      rw [serNum, if_neg hn, habs]
    have hx : natDigits n.natAbs ++ rest = d :: (t ++ rest) := by rw [hd]; simp
    rw [hser, hx]
    simp only [parseNum]
    rw [if_neg (by omega : ¬ d = 45), if_pos hdig, ← hx,
      parseDigitsAux_append, parseDigitsAux_stop _ _ h]
    simp only [Nat.zero_mul, Nat.zero_add, Option.some.injEq, Prod.mk.injEq, and_true]
    omega

set_option maxHeartbeats 1000000 in
theorem asciiBytes_null : asciiBytes "null" = [110, 117, 108, 108] := by decide

set_option maxHeartbeats 1000000 in
theorem asciiBytes_true : asciiBytes "true" = [116, 114, 117, 101] := by decide

set_option maxHeartbeats 1000000 in
theorem asciiBytes_false : asciiBytes "false" = [102, 97, 108, 115, 101] := by decide

theorem serNum_head (n : Int) :
    ∃ b t, serNum n = b :: t ∧ (b = 45 ∨ (48 ≤ b ∧ b ≤ 57)) := by
  obtain ⟨d, t, hd, hd1, hd2, _⟩ := natDigits_cons n.natAbs
  by_cases hn : n < 0
  · exact ⟨45, natDigits n.natAbs,
      by rw [serNum, if_pos hn, show (-n).toNat = n.natAbs by omega], Or.inl rfl⟩
  · exact ⟨d, t,
      by rw [serNum, if_neg hn, show n.toNat = n.natAbs by omega, hd], Or.inr ⟨hd1, hd2⟩⟩

theorem ser_head (v : Json) : ∃ b t, Json.ser v = b :: t ∧ b ≠ 93 := by
  cases v with
  | null => exact ⟨110, [117, 108, 108], by simp [Json.ser, asciiBytes_null], by omega⟩
  | bool b =>
    cases b with
    | true => exact ⟨116, [114, 117, 101], by simp [Json.ser, asciiBytes_true], by omega⟩
    | false => exact ⟨102, [97, 108, 115, 101], by simp [Json.ser, asciiBytes_false], by omega⟩
  | num n =>
    obtain ⟨b, t, hbt, hb⟩ := serNum_head n
    exact ⟨b, t, by simp [Json.ser, hbt], by rcases hb with h | h <;> omega⟩
  | str s => exact ⟨34, serStrBody s ++ [34], by simp [Json.ser, serStr], by omega⟩
  | arr l =>
    cases l with
    | nil => exact ⟨91, [93], by simp [Json.ser], by omega⟩
    | cons x xs =>
      exact ⟨91, (Json.ser x ++ serArrTail xs) ++ [93], by simp [Json.ser], by omega⟩
  | obj fs =>
    cases fs with
    | nil => exact ⟨123, [125], by simp [Json.ser], by omega⟩
    | cons f fs =>
      exact ⟨123, (serField f ++ serObjTail fs) ++ [125], by simp [Json.ser], by omega⟩

theorem noDigitHead_arrTail (xs : List Json) (r : List Nat) :
    noDigitHead (serArrTail xs ++ 93 :: r) = true := by
  cases xs <;> simp [serArrTail, noDigitHead, isDigitByte]

theorem noDigitHead_objTail (fs : List (List Nat × Json)) (r : List Nat) :
    noDigitHead (serObjTail fs ++ 125 :: r) = true := by
  cases fs <;> simp [serObjTail, noDigitHead, isDigitByte]

theorem parseJson_num_start (f : Nat) (b : Nat) (rest : List Nat)
    (h : b = 45 ∨ (48 ≤ b ∧ b ≤ 57)) :
    parseJson (f + 1) (b :: rest) =
      (parseNum (b :: rest)).map (fun p => (Json.num p.1, p.2)) := by
  rcases h with h | h
  · subst h
    unfold parseJson
    simp
  · unfold parseJson
    rw [if_neg (by omega : ¬ b = 110), if_neg (by omega : ¬ b = 116),
      if_neg (by omega : ¬ b = 102), if_neg (by omega : ¬ b = 34),
      if_neg (by omega : ¬ b = 91), if_neg (by omega : ¬ b = 123)]
    have hcond : (decide (b = 45) || isDigitByte b) = true := by
      simp [isDigitByte]
      omega
    simp [hcond]

theorem parseObjField_ser (k : List Nat) (v : Json) (tail : List Nat) (f : Nat)
    (hparse : parseJson f (Json.ser v ++ tail) = some (v, tail)) :
    parseObjField (f + 1) (serField (k, v) ++ tail) = some ((k, v), tail) := by
  have harg : serField (k, v) ++ tail =
      34 :: (serStrBody k ++ 34 :: (58 :: (Json.ser v ++ tail))) := by
    simp [serField, serStr]
  rw [harg]
  unfold parseObjField
  simp [parseStrBody_ser, hparse]

theorem parse_ser_main :
    ∀ n : Nat,
      (∀ v : Json, Json.fuelNeed v ≤ n →
        ∀ fuel, Json.fuelNeed v ≤ fuel → ∀ rest, noDigitHead rest = true →
          parseJson fuel (Json.ser v ++ rest) = some (v, rest)) ∧
      (∀ l : List Json, listFuel l ≤ n →
        ∀ fuel, listFuel l ≤ fuel → ∀ rest,
          parseArrTail fuel (serArrTail l ++ 93 :: rest) = some (l, rest)) ∧
      (∀ fs : List (List Nat × Json), fieldsFuel fs ≤ n →
        ∀ fuel, fieldsFuel fs ≤ fuel → ∀ rest,
          parseObjTail fuel (serObjTail fs ++ 125 :: rest) = some (fs, rest)) := by
  intro n
  induction n using Nat.strong_induction_on with
  | _ n ih =>
    refine ⟨?_, ?_, ?_⟩
    · intro v hv fuel hfuel rest hrest
      cases v with
      | null =>
        have hfn : Json.fuelNeed .null = 1 := by simp [Json.fuelNeed]
        obtain ⟨f, rfl⟩ : ∃ f, fuel = f + 1 := ⟨fuel - 1, by omega⟩
        have harg : Json.ser .null ++ rest = 110 :: 117 :: 108 :: 108 :: rest := by
          simp [Json.ser, asciiBytes_null]
        rw [harg]
        unfold parseJson
        simp
      | bool b =>
        have hfn : Json.fuelNeed (.bool b) = 1 := by simp [Json.fuelNeed]
        obtain ⟨f, rfl⟩ : ∃ f, fuel = f + 1 := ⟨fuel - 1, by omega⟩
        cases b with
        | true =>
          have harg : Json.ser (.bool true) ++ rest = 116 :: 114 :: 117 :: 101 :: rest := by
            simp [Json.ser, asciiBytes_true]
          rw [harg]
          unfold parseJson
          simp
        | false =>
          have harg : Json.ser (.bool false) ++ rest =
              102 :: 97 :: 108 :: 115 :: 101 :: rest := by
            simp [Json.ser, asciiBytes_false]
          rw [harg]
          unfold parseJson
          simp
      | num k =>
        have hfn : Json.fuelNeed (.num k) = 1 := by simp [Json.fuelNeed]
        obtain ⟨f, rfl⟩ : ∃ f, fuel = f + 1 := ⟨fuel - 1, by omega⟩
        obtain ⟨b, t, hbt, hb⟩ := serNum_head k
        have harg : Json.ser (.num k) ++ rest = b :: (t ++ rest) := by
          simp [Json.ser, hbt]
        rw [harg, parseJson_num_start f b (t ++ rest) hb]
        have hback : b :: (t ++ rest) = serNum k ++ rest := by rw [hbt]; simp
        rw [hback, parseNum_ser k rest hrest]
        simp
      | str s =>
        have hfn : Json.fuelNeed (.str s) = 1 := by simp [Json.fuelNeed]
        obtain ⟨f, rfl⟩ : ∃ f, fuel = f + 1 := ⟨fuel - 1, by omega⟩
        have harg : Json.ser (.str s) ++ rest = 34 :: (serStrBody s ++ 34 :: rest) := by
          simp [Json.ser, serStr]
        rw [harg]
        unfold parseJson
        simp [parseStrBody_ser]
      | arr l =>
        cases l with
        | nil =>
          have hfn : Json.fuelNeed (.arr []) = 1 + listFuel [] := by simp [Json.fuelNeed]
          have hlf : listFuel ([] : List Json) = 1 := by simp [listFuel]
          obtain ⟨f, rfl⟩ : ∃ f, fuel = f + 1 := ⟨fuel - 1, by omega⟩
          have harg : Json.ser (.arr []) ++ rest = 91 :: 93 :: rest := by
            simp [Json.ser]
          rw [harg]
          unfold parseJson
          simp
        | cons x xs =>
          have hfn : Json.fuelNeed (.arr (x :: xs)) = 1 + listFuel (x :: xs) := by
            simp [Json.fuelNeed]
          have hlf : listFuel (x :: xs) = 1 + max x.fuelNeed (listFuel xs) := by
            simp [listFuel]
          obtain ⟨f, rfl⟩ : ∃ f, fuel = f + 1 := ⟨fuel - 1, by omega⟩
          have harg : Json.ser (.arr (x :: xs)) ++ rest =
              91 :: (Json.ser x ++ (serArrTail xs ++ 93 :: rest)) := by
            simp [Json.ser]
          rw [harg]
          unfold parseJson
          obtain ⟨b, t, hbt, hb93⟩ := ser_head x
          have hhead : ¬ (Json.ser x ++ (serArrTail xs ++ 93 :: rest)).head? = some 93 := by
            rw [hbt]
            simp [hb93]
          have hx : parseJson f (Json.ser x ++ (serArrTail xs ++ 93 :: rest)) =
              some (x, serArrTail xs ++ 93 :: rest) := by
            refine (ih x.fuelNeed (by omega)).1 x le_rfl f (by omega) _
              (noDigitHead_arrTail xs rest)
          have hxs : parseArrTail f (serArrTail xs ++ 93 :: rest) = some (xs, rest) := by
            refine (ih (listFuel xs) (by omega)).2.1 xs le_rfl f (by omega) rest
          simp only [hhead, hx, hxs]
          rw [hbt]
          simp [hb93]
      | obj fs =>
        cases fs with
        | nil =>
          have hfn : Json.fuelNeed (.obj []) = 1 + fieldsFuel [] := by simp [Json.fuelNeed]
          have hff : fieldsFuel ([] : List (List Nat × Json)) = 1 := by simp [fieldsFuel]
          obtain ⟨f, rfl⟩ : ∃ f, fuel = f + 1 := ⟨fuel - 1, by omega⟩
          have harg : Json.ser (.obj []) ++ rest = 123 :: 125 :: rest := by
            simp [Json.ser]
          rw [harg]
          unfold parseJson
          simp
        | cons kv fs =>
          obtain ⟨k, v⟩ := kv
          have hfn : Json.fuelNeed (.obj ((k, v) :: fs)) = 1 + fieldsFuel ((k, v) :: fs) := by
            simp [Json.fuelNeed]
          have hff : fieldsFuel ((k, v) :: fs) = 1 + max (1 + v.fuelNeed) (fieldsFuel fs) := by
            simp [fieldsFuel]
          obtain ⟨f0, rfl⟩ : ∃ f0, fuel = f0 + 1 := ⟨fuel - 1, by omega⟩
          obtain ⟨f, rfl⟩ : ∃ f, f0 = f + 1 := ⟨f0 - 1, by omega⟩
          have harg : Json.ser (.obj ((k, v) :: fs)) ++ rest =
              123 :: (serField (k, v) ++ (serObjTail fs ++ 125 :: rest)) := by
            simp [Json.ser]
          rw [harg]
          unfold parseJson
          have hhead : ¬ (serField (k, v) ++ (serObjTail fs ++ 125 :: rest)).head? = some 125 := by
            simp [serField, serStr]
          have hv1 : parseJson f (Json.ser v ++ (serObjTail fs ++ 125 :: rest)) =
              some (v, serObjTail fs ++ 125 :: rest) := by
            refine (ih v.fuelNeed (by omega)).1 v le_rfl f (by omega) _
              (noDigitHead_objTail fs rest)
          have hfld : parseObjField (f + 1) (serField (k, v) ++ (serObjTail fs ++ 125 :: rest)) =
              some ((k, v), serObjTail fs ++ 125 :: rest) :=
            parseObjField_ser k v _ f hv1
          have hfs : parseObjTail (f + 1) (serObjTail fs ++ 125 :: rest) = some (fs, rest) := by
            refine (ih (fieldsFuel fs) (by omega)).2.2 fs le_rfl (f + 1) (by omega) rest
          simp only [hhead, hfld, hfs]
          simp [serField, serStr]
    · intro l hl fuel hfuel rest
      cases l with
      | nil =>
        have hlf : listFuel ([] : List Json) = 1 := by simp [listFuel]
        obtain ⟨f, rfl⟩ : ∃ f, fuel = f + 1 := ⟨fuel - 1, by omega⟩
        have harg : serArrTail ([] : List Json) ++ 93 :: rest = 93 :: rest := by
          simp [serArrTail]
        rw [harg]
        unfold parseArrTail
        rfl
      | cons x xs =>
        have hlf : listFuel (x :: xs) = 1 + max x.fuelNeed (listFuel xs) := by
          simp [listFuel]
        obtain ⟨f, rfl⟩ : ∃ f, fuel = f + 1 := ⟨fuel - 1, by omega⟩
        have harg : serArrTail (x :: xs) ++ 93 :: rest =
            44 :: (Json.ser x ++ (serArrTail xs ++ 93 :: rest)) := by
          simp [serArrTail]
        rw [harg]
        unfold parseArrTail
        have hx : parseJson f (Json.ser x ++ (serArrTail xs ++ 93 :: rest)) =
            some (x, serArrTail xs ++ 93 :: rest) := by
          refine (ih x.fuelNeed (by omega)).1 x le_rfl f (by omega) _
            (noDigitHead_arrTail xs rest)
        have hxs : parseArrTail f (serArrTail xs ++ 93 :: rest) = some (xs, rest) := by
          refine (ih (listFuel xs) (by omega)).2.1 xs le_rfl f (by omega) rest
        simp [hx, hxs]
    · intro fs hfs fuel hfuel rest
      cases fs with
      | nil =>
        have hff : fieldsFuel ([] : List (List Nat × Json)) = 1 := by simp [fieldsFuel]
        obtain ⟨f, rfl⟩ : ∃ f, fuel = f + 1 := ⟨fuel - 1, by omega⟩
        have harg : serObjTail ([] : List (List Nat × Json)) ++ 125 :: rest = 125 :: rest := by
          simp [serObjTail]
        rw [harg]
        unfold parseObjTail
        rfl
      | cons kv fs =>
        obtain ⟨k, v⟩ := kv
        have hff : fieldsFuel ((k, v) :: fs) = 1 + max (1 + v.fuelNeed) (fieldsFuel fs) := by
          simp [fieldsFuel]
        obtain ⟨f0, rfl⟩ : ∃ f0, fuel = f0 + 1 := ⟨fuel - 1, by omega⟩
        obtain ⟨f, rfl⟩ : ∃ f, f0 = f + 1 := ⟨f0 - 1, by omega⟩
        have harg : serObjTail ((k, v) :: fs) ++ 125 :: rest =
            44 :: (serField (k, v) ++ (serObjTail fs ++ 125 :: rest)) := by
          simp [serObjTail]
        rw [harg]
        unfold parseObjTail
        have hv1 : parseJson f (Json.ser v ++ (serObjTail fs ++ 125 :: rest)) =
            some (v, serObjTail fs ++ 125 :: rest) := by
          refine (ih v.fuelNeed (by omega)).1 v le_rfl f (by omega) _
            (noDigitHead_objTail fs rest)
        have hfld : parseObjField (f + 1) (serField (k, v) ++ (serObjTail fs ++ 125 :: rest)) =
            some ((k, v), serObjTail fs ++ 125 :: rest) :=
          parseObjField_ser k v _ f hv1
        have hrest2 : parseObjTail (f + 1) (serObjTail fs ++ 125 :: rest) = some (fs, rest) := by
          refine (ih (fieldsFuel fs) (by omega)).2.2 fs le_rfl (f + 1) (by omega) rest
        simp [hfld, hrest2]

/-- Round trip with explicit fuel: parsing the serialization of a JSON value,
followed by any suffix that cannot extend a number literal, returns the value
and the suffix. -/
theorem parseJson_ser (v : Json) (fuel : Nat) (hf : Json.fuelNeed v ≤ fuel)
    (rest : List Nat) (hrest : noDigitHead rest = true) :
    parseJson fuel (Json.ser v ++ rest) = some (v, rest) :=
  (parse_ser_main v.fuelNeed).1 v le_rfl fuel hf rest hrest

theorem fuelNeed_le_main :
    ∀ n : Nat,
      (∀ v : Json, Json.fuelNeed v ≤ n → Json.fuelNeed v ≤ (Json.ser v).length + 1) ∧
      (∀ l : List Json, listFuel l ≤ n → listFuel l ≤ (serArrTail l).length + 1) ∧
      (∀ fs : List (List Nat × Json), fieldsFuel fs ≤ n →
        fieldsFuel fs ≤ (serObjTail fs).length + 1) := by
  intro n
  induction n using Nat.strong_induction_on with
  | _ n ih =>
    refine ⟨?_, ?_, ?_⟩
    · intro v hv
      cases v with
      | null =>
        have hfn : Json.fuelNeed .null = 1 := by simp [Json.fuelNeed]
        omega
      | bool b =>
        have hfn : Json.fuelNeed (.bool b) = 1 := by simp [Json.fuelNeed]
        omega
      | num k =>
        have hfn : Json.fuelNeed (.num k) = 1 := by simp [Json.fuelNeed]
        omega
      | str s =>
        have hfn : Json.fuelNeed (.str s) = 1 := by simp [Json.fuelNeed]
        omega
      | arr l =>
        cases l with
        | nil =>
          have hfn : Json.fuelNeed (.arr []) = 1 + listFuel [] := by simp [Json.fuelNeed]
          have hlf : listFuel ([] : List Json) = 1 := by simp [listFuel]
          have hser : Json.ser (.arr []) = [91, 93] := by simp [Json.ser]
          rw [hfn, hlf, hser]
          simp
        | cons x xs =>
          have hfn : Json.fuelNeed (.arr (x :: xs)) = 1 + listFuel (x :: xs) := by
            simp [Json.fuelNeed]
          have hlf : listFuel (x :: xs) = 1 + max x.fuelNeed (listFuel xs) := by
            simp [listFuel]
          have hser : Json.ser (.arr (x :: xs)) = 91 :: (Json.ser x ++ serArrTail xs) ++ [93] := by
            simp [Json.ser]
          have hx : Json.fuelNeed x ≤ (Json.ser x).length + 1 :=
            (ih x.fuelNeed (by omega)).1 x le_rfl
          have hxs : listFuel xs ≤ (serArrTail xs).length + 1 :=
            (ih (listFuel xs) (by omega)).2.1 xs le_rfl
          rw [hfn, hlf, hser]
          simp only [List.length_append, List.length_cons, List.length_singleton]
          omega
      | obj fs =>
        cases fs with
        | nil =>
          have hfn : Json.fuelNeed (.obj []) = 1 + fieldsFuel [] := by simp [Json.fuelNeed]
          have hff : fieldsFuel ([] : List (List Nat × Json)) = 1 := by simp [fieldsFuel]
          have hser : Json.ser (.obj []) = [123, 125] := by simp [Json.ser]
          rw [hfn, hff, hser]
          simp
        | cons kv fs =>
          obtain ⟨k, v⟩ := kv
          have hfn : Json.fuelNeed (.obj ((k, v) :: fs)) = 1 + fieldsFuel ((k, v) :: fs) := by
            simp [Json.fuelNeed]
          have hff : fieldsFuel ((k, v) :: fs) = 1 + max (1 + v.fuelNeed) (fieldsFuel fs) := by
            simp [fieldsFuel]
          have hser : Json.ser (.obj ((k, v) :: fs)) =
              123 :: (serField (k, v) ++ serObjTail fs) ++ [125] := by
            simp [Json.ser]
          have hserf : serField (k, v) = (34 :: serStrBody k ++ [34]) ++ 58 :: Json.ser v := by
            simp [serField, serStr]
          have hv1 : Json.fuelNeed v ≤ (Json.ser v).length + 1 :=
            (ih v.fuelNeed (by omega)).1 v le_rfl
          have hfs : fieldsFuel fs ≤ (serObjTail fs).length + 1 :=
            (ih (fieldsFuel fs) (by omega)).2.2 fs le_rfl
          rw [hfn, hff, hser, hserf]
          simp only [List.length_append, List.length_cons, List.length_singleton]
          omega
    · intro l hl
      cases l with
      | nil =>
        have hlf : listFuel ([] : List Json) = 1 := by simp [listFuel]
        have hser : serArrTail ([] : List Json) = [] := by simp [serArrTail]
        rw [hlf, hser]
        simp
      | cons x xs =>
        have hlf : listFuel (x :: xs) = 1 + max x.fuelNeed (listFuel xs) := by
          simp [listFuel]
        have hser : serArrTail (x :: xs) = 44 :: Json.ser x ++ serArrTail xs := by
          simp [serArrTail]
        have hx : Json.fuelNeed x ≤ (Json.ser x).length + 1 :=
          (ih x.fuelNeed (by omega)).1 x le_rfl
        have hxs : listFuel xs ≤ (serArrTail xs).length + 1 :=
          (ih (listFuel xs) (by omega)).2.1 xs le_rfl
        rw [hlf, hser]
        simp only [List.length_append, List.length_cons]
        omega
    · intro fs hfs
      cases fs with
      | nil =>
        have hff : fieldsFuel ([] : List (List Nat × Json)) = 1 := by simp [fieldsFuel]
        have hser : serObjTail ([] : List (List Nat × Json)) = [] := by simp [serObjTail]
        rw [hff, hser]
        simp
      | cons kv fs =>
        obtain ⟨k, v⟩ := kv
        have hff : fieldsFuel ((k, v) :: fs) = 1 + max (1 + v.fuelNeed) (fieldsFuel fs) := by
          simp [fieldsFuel]
        have hser : serObjTail ((k, v) :: fs) = 44 :: serField (k, v) ++ serObjTail fs := by
          simp [serObjTail]
        have hserf : serField (k, v) = (34 :: serStrBody k ++ [34]) ++ 58 :: Json.ser v := by
          simp [serField, serStr]
        have hv1 : Json.fuelNeed v ≤ (Json.ser v).length + 1 :=
          (ih v.fuelNeed (by omega)).1 v le_rfl
        have hfself : fieldsFuel fs ≤ (serObjTail fs).length + 1 :=
          (ih (fieldsFuel fs) (by omega)).2.2 fs le_rfl
        rw [hff, hser, hserf]
        simp only [List.length_append, List.length_cons]
        omega

theorem fuelNeed_le_ser (v : Json) : Json.fuelNeed v ≤ (Json.ser v).length + 1 :=
  (fuelNeed_le_main v.fuelNeed).1 v le_rfl

/-- Complete round trip: decoding the serialization of any JSON value returns
exactly that value. -/
theorem decodeJson_ser (v : Json) : decodeJson (Json.ser v) = some v := by
  have h1 : parseJson ((Json.ser v).length + 1) (Json.ser v ++ []) = some (v, []) :=
    parseJson_ser v _ (fuelNeed_le_ser v) [] rfl
  rw [List.append_nil] at h1
  unfold decodeJson
  rw [h1]

/-! ### base64url (the base64url npm package, unpadded URL-safe base64) -/

/-- Character of a 6-bit value in the base64url alphabet
(A-Z, a-z, 0-9, minus, underscore). -/
def b64Char (v : Nat) : Nat :=
  if v < 26 then 65 + v
  else if v < 52 then 97 + (v - 26)
  else if v < 62 then 48 + (v - 52)
  else if v = 62 then 45
  else 95

/-- base64url encoding (no padding) of a byte list, as base64url.encode
produces on a Buffer. -/
def b64Encode : List Nat → List Nat
  | [] => []
  | [a] => [b64Char (a / 4), b64Char (a % 4 * 16)]
  | [a, b] => [b64Char (a / 4), b64Char (a % 4 * 16 + b / 16), b64Char (b % 16 * 4)]
  | a :: b :: c :: rest =>
    b64Char (a / 4) :: b64Char (a % 4 * 16 + b / 16) :: b64Char (b % 16 * 4 + c / 64)
      :: b64Char (c % 64) :: b64Encode rest

/-- Value of a base64url alphabet character. -/
def b64Val (c : Nat) : Option Nat :=
  if 65 ≤ c ∧ c ≤ 90 then some (c - 65)
  else if 97 ≤ c ∧ c ≤ 122 then some (c - 97 + 26)
  else if 48 ≤ c ∧ c ≤ 57 then some (c - 48 + 52)
  else if c = 45 then some 62
  else if c = 95 then some 63
  else none

/-- base64url decoding, inverse to b64Encode. -/
def b64Decode : List Nat → Option (List Nat)
  | [] => some []
  | [_] => none
  | [x, y] =>
    match b64Val x, b64Val y with
    | some vx, some vy => some [vx * 4 + vy / 16]
    | _, _ => none
  | [x, y, z] =>
    match b64Val x, b64Val y, b64Val z with
    | some vx, some vy, some vz => some [vx * 4 + vy / 16, vy % 16 * 16 + vz / 4]
    | _, _, _ => none
  | x :: y :: z :: w :: rest =>
    match b64Val x, b64Val y, b64Val z, b64Val w, b64Decode rest with
    | some vx, some vy, some vz, some vw, some bs =>
      some ((vx * 4 + vy / 16) :: (vy % 16 * 16 + vz / 4) :: (vz % 4 * 64 + vw) :: bs)
    | _, _, _, _, _ => none

theorem b64Val_b64Char (v : Nat) (h : v < 64) : b64Val (b64Char v) = some v := by
  interval_cases v <;> rfl

theorem b64Char_ne_46 (v : Nat) : b64Char v ≠ 46 := by
  unfold b64Char
  split_ifs <;> omega

theorem b64Char_ne_46s (v : Nat) : ¬ (46 : Nat) = b64Char v :=
  fun h => b64Char_ne_46 v h.symm

/-- Decoding inverts encoding on byte lists. -/
theorem b64Decode_encode : ∀ (l : List Nat), (∀ b ∈ l, b < 256) →
    b64Decode (b64Encode l) = some l := by
  have main : ∀ n, ∀ l : List Nat, l.length ≤ n → (∀ b ∈ l, b < 256) →
      b64Decode (b64Encode l) = some l := by
    intro n
    induction n using Nat.strong_induction_on with
    | _ n ih =>
      intro l hlen hb
      match l with
      | [] => simp [b64Encode, b64Decode]
      | [a] =>
        have ha : a < 256 := hb a (by simp)
        have hv1 : b64Val (b64Char (a / 4)) = some (a / 4) :=
          b64Val_b64Char _ (by omega)
        have hv2 : b64Val (b64Char (a % 4 * 16)) = some (a % 4 * 16) :=
          b64Val_b64Char _ (by omega)
        simp [b64Encode, b64Decode, hv1, hv2]
        omega
      | [a, b] =>
        have ha : a < 256 := hb a (by simp)
        have hbb : b < 256 := hb b (by simp)
        have hv1 : b64Val (b64Char (a / 4)) = some (a / 4) :=
          b64Val_b64Char _ (by omega)
        have hv2 : b64Val (b64Char (a % 4 * 16 + b / 16)) = some (a % 4 * 16 + b / 16) :=
          b64Val_b64Char _ (by omega)
        have hv3 : b64Val (b64Char (b % 16 * 4)) = some (b % 16 * 4) :=
          b64Val_b64Char _ (by omega)
        simp [b64Encode, b64Decode, hv1, hv2, hv3]
        omega
      | a :: b :: c :: rest =>
        have ha : a < 256 := hb a (by simp)
        have hbb : b < 256 := hb b (by simp)
        have hc : c < 256 := hb c (by simp)
        have hlen2 : rest.length < n := by
          simp [List.length_cons] at hlen
          omega
        have hrec : b64Decode (b64Encode rest) = some rest :=
          ih rest.length hlen2 rest le_rfl (fun x hx => hb x (by simp [hx]))
        have hv1 : b64Val (b64Char (a / 4)) = some (a / 4) :=
          b64Val_b64Char _ (by omega)
        have hv2 : b64Val (b64Char (a % 4 * 16 + b / 16)) = some (a % 4 * 16 + b / 16) :=
          b64Val_b64Char _ (by omega)
        have hv3 : b64Val (b64Char (b % 16 * 4 + c / 64)) = some (b % 16 * 4 + c / 64) :=
          b64Val_b64Char _ (by omega)
        have hv4 : b64Val (b64Char (c % 64)) = some (c % 64) :=
          b64Val_b64Char _ (by omega)
        simp [b64Encode, b64Decode, hv1, hv2, hv3, hv4, hrec]
        omega
  exact fun l => main l.length l le_rfl

theorem b64Encode_not_46 : ∀ l : List Nat, 46 ∉ b64Encode l := by
  have main : ∀ n, ∀ l : List Nat, l.length ≤ n → 46 ∉ b64Encode l := by
    intro n
    induction n using Nat.strong_induction_on with
    | _ n ih =>
      intro l hlen
      match l with
      | [] => simp [b64Encode]
      | [a] => simp [b64Encode, b64Char_ne_46s]
      | [a, b] => simp [b64Encode, b64Char_ne_46s]
      | a :: b :: c :: rest =>
        have hlen2 : rest.length < n := by
          simp [List.length_cons] at hlen
          omega
        have hrec : 46 ∉ b64Encode rest := ih rest.length hlen2 rest le_rfl
        simp [b64Encode, b64Char_ne_46s, hrec]
  exact fun l => main l.length l le_rfl

/-! ### Well-formed JSON values: all string bytes are actual bytes -/

mutual

/-- A JSON value is well formed when every string byte (in strings and object
keys) is below 256, as holds for UTF-8 bytes of JavaScript strings. -/
def Json.wfB : Json → Bool
  | .null => true
  | .bool _ => true
  | .num _ => true
  | .str s => s.all (fun b => b < 256)
  | .arr l => listWfB l
  | .obj fs => fieldsWfB fs

/-- Well-formedness of a list of JSON values. -/
def listWfB : List Json → Bool
  | [] => true
  | x :: xs => x.wfB && listWfB xs

/-- Well-formedness of object fields. -/
def fieldsWfB : List (List Nat × Json) → Bool
  | [] => true
  | kv :: fs => (kv.1.all (fun b => b < 256) && kv.2.wfB) && fieldsWfB fs

end

theorem escapeByte_lt (b : Nat) (h : b < 256) : ∀ x ∈ escapeByte b, x < 256 := by
  intro x hx
  unfold escapeByte at hx
  split_ifs at hx with h1 h2 h3 h4 h5 h6 h7 h8
  all_goals simp at hx
  all_goals try omega
  rcases hx with hx | hx | hx | hx | hx <;>
    first
      | omega
      | (subst hx; unfold hexDigitByte; split_ifs <;> omega)

theorem serStrBody_lt (s : List Nat) (h : ∀ b ∈ s, b < 256) :
    ∀ x ∈ serStrBody s, x < 256 := by
  intro x hx
  unfold serStrBody at hx
  simp [List.mem_flatten] at hx
  obtain ⟨b, hb, hxb⟩ := hx
  exact escapeByte_lt b (h b hb) x hxb

theorem serNum_lt (k : Int) : ∀ x ∈ serNum k, x < 256 := by
  obtain ⟨d, t, hd, hd1, hd2, hall⟩ := natDigits_cons k.natAbs
  intro x hx
  unfold serNum at hx
  split_ifs at hx with hk
  · rw [show (-k).toNat = k.natAbs by omega] at hx
    simp at hx
    rcases hx with hx | hx
    · omega
    · have := hall x hx
      omega
  · rw [show k.toNat = k.natAbs by omega] at hx
    have := hall x hx
    omega

theorem ser_lt_main :
    ∀ n : Nat,
      (∀ v : Json, Json.fuelNeed v ≤ n → Json.wfB v = true → ∀ x ∈ Json.ser v, x < 256) ∧
      (∀ l : List Json, listFuel l ≤ n → listWfB l = true →
        ∀ x ∈ serArrTail l, x < 256) ∧
      (∀ fs : List (List Nat × Json), fieldsFuel fs ≤ n → fieldsWfB fs = true →
        ∀ x ∈ serObjTail fs, x < 256) := by
  intro n
  induction n using Nat.strong_induction_on with
  | _ n ih =>
    refine ⟨?_, ?_, ?_⟩
    · intro v hv hwf x hx
      cases v with
      | null =>
        rw [show Json.ser .null = [110, 117, 108, 108] by simp [Json.ser, asciiBytes_null]] at hx
        simp at hx
        omega
      | bool b =>
        cases b with
        | true =>
          rw [show Json.ser (.bool true) = [116, 114, 117, 101] by
            simp [Json.ser, asciiBytes_true]] at hx
          simp at hx
          omega
        | false =>
          rw [show Json.ser (.bool false) = [102, 97, 108, 115, 101] by
            simp [Json.ser, asciiBytes_false]] at hx
          simp at hx
          omega
      | num k =>
        rw [show Json.ser (.num k) = serNum k by simp [Json.ser]] at hx
        exact serNum_lt k x hx
      | str s =>
        rw [show Json.ser (.str s) = 34 :: serStrBody s ++ [34] by simp [Json.ser, serStr]] at hx
        have hwf2 : ∀ b ∈ s, b < 256 := by
          have : Json.wfB (.str s) = s.all (fun b => b < 256) := by simp [Json.wfB]
          rw [this] at hwf
          simp [List.all_eq_true] at hwf
          intro b hb
          exact hwf b hb
        simp at hx
        rcases hx with hx | hx | hx
        · omega
        · exact serStrBody_lt s hwf2 x hx
        · omega
      | arr l =>
        have hfn : Json.fuelNeed (.arr l) = 1 + listFuel l := by simp [Json.fuelNeed]
        have hwf2 : listWfB l = true := by
          have heq : Json.wfB (.arr l) = listWfB l := by simp [Json.wfB]
          rw [heq] at hwf
          exact hwf
        cases l with
        | nil =>
          rw [show Json.ser (.arr []) = [91, 93] by simp [Json.ser]] at hx
          simp at hx
          omega
        | cons y ys =>
          have hlf : listFuel (y :: ys) = 1 + max y.fuelNeed (listFuel ys) := by
            simp [listFuel]
          rw [show Json.ser (.arr (y :: ys)) = 91 :: (Json.ser y ++ serArrTail ys) ++ [93] by
            simp [Json.ser]] at hx
          simp at hx
          rw [show listWfB (y :: ys) = (y.wfB && listWfB ys) by simp [listWfB]] at hwf2
          simp at hwf2
          rcases hx with hx | hx | hx | hx
          · omega
          · exact (ih y.fuelNeed (by omega)).1 y le_rfl hwf2.1 x hx
          · exact (ih (listFuel ys) (by omega)).2.1 ys le_rfl hwf2.2 x hx
          · omega
      | obj fs =>
        have hfn : Json.fuelNeed (.obj fs) = 1 + fieldsFuel fs := by simp [Json.fuelNeed]
        have hwf2 : fieldsWfB fs = true := by
          have heq : Json.wfB (.obj fs) = fieldsWfB fs := by simp [Json.wfB]
          rw [heq] at hwf
          exact hwf
        cases fs with
        | nil =>
          rw [show Json.ser (.obj []) = [123, 125] by simp [Json.ser]] at hx
          simp at hx
          omega
        | cons kv fs2 =>
          obtain ⟨k, v⟩ := kv
          have hff : fieldsFuel ((k, v) :: fs2) = 1 + max (1 + v.fuelNeed) (fieldsFuel fs2) := by
            simp [fieldsFuel]
          rw [show Json.ser (.obj ((k, v) :: fs2)) =
              123 :: (serField (k, v) ++ serObjTail fs2) ++ [125] by simp [Json.ser]] at hx
          rw [show fieldsWfB ((k, v) :: fs2) =
              ((k.all (fun b => b < 256) && v.wfB) && fieldsWfB fs2) by simp [fieldsWfB]] at hwf2
          simp at hwf2
          simp at hx
          rcases hx with hx | hx | hx | hx
          · omega
          · rw [show serField (k, v) = (34 :: serStrBody k ++ [34]) ++ 58 :: Json.ser v by
              simp [serField, serStr]] at hx
            simp at hx
            rcases hx with hx | hx | hx | hx | hx
            · omega
            · refine serStrBody_lt k ?_ x hx
              intro b hb
              exact hwf2.1.1 b hb
            · omega
            · omega
            · exact (ih v.fuelNeed (by omega)).1 v le_rfl hwf2.1.2 x hx
          · exact (ih (fieldsFuel fs2) (by omega)).2.2 fs2 le_rfl hwf2.2 x hx
          · omega
    · intro l hl hwf x hx
      cases l with
      | nil =>
        rw [show serArrTail ([] : List Json) = [] by simp [serArrTail]] at hx
        simp at hx
      | cons y ys =>
        have hlf : listFuel (y :: ys) = 1 + max y.fuelNeed (listFuel ys) := by
          simp [listFuel]
        rw [show serArrTail (y :: ys) = 44 :: Json.ser y ++ serArrTail ys by
          simp [serArrTail]] at hx
        rw [show listWfB (y :: ys) = (y.wfB && listWfB ys) by simp [listWfB]] at hwf
        simp at hwf
        simp at hx
        rcases hx with hx | hx | hx
        · omega
        · exact (ih y.fuelNeed (by omega)).1 y le_rfl hwf.1 x hx
        · exact (ih (listFuel ys) (by omega)).2.1 ys le_rfl hwf.2 x hx
    · intro fs hfs hwf x hx
      cases fs with
      | nil =>
        rw [show serObjTail ([] : List (List Nat × Json)) = [] by simp [serObjTail]] at hx
        simp at hx
      | cons kv fs2 =>
        obtain ⟨k, v⟩ := kv
        have hff : fieldsFuel ((k, v) :: fs2) = 1 + max (1 + v.fuelNeed) (fieldsFuel fs2) := by
          simp [fieldsFuel]
        rw [show serObjTail ((k, v) :: fs2) = 44 :: serField (k, v) ++ serObjTail fs2 by
          simp [serObjTail]] at hx
        rw [show fieldsWfB ((k, v) :: fs2) =
            ((k.all (fun b => b < 256) && v.wfB) && fieldsWfB fs2) by simp [fieldsWfB]] at hwf
        simp at hwf
        simp at hx
        rcases hx with hx | hx | hx
        · omega
        · rw [show serField (k, v) = (34 :: serStrBody k ++ [34]) ++ 58 :: Json.ser v by
            simp [serField, serStr]] at hx
          simp at hx
          rcases hx with hx | hx | hx | hx | hx
          · omega
          · refine serStrBody_lt k ?_ x hx
            intro b hb
            exact hwf.1.1 b hb
          · omega
          · omega
          · exact (ih v.fuelNeed (by omega)).1 v le_rfl hwf.1.2 x hx
        · exact (ih (fieldsFuel fs2) (by omega)).2.2 fs2 le_rfl hwf.2 x hx

/-- Serialization of a well-formed JSON value yields only bytes below 256. -/
theorem ser_lt (v : Json) (h : Json.wfB v = true) : ∀ x ∈ Json.ser v, x < 256 :=
  (ser_lt_main v.fuelNeed).1 v le_rfl h

/-! ### Splitting a JWS token at the dots (byte 46) -/

/-- Split a byte list at every occurrence of byte 46 (the dot). -/
def splitDots : List Nat → List (List Nat)
  | [] => [[]]
  | b :: rest =>
    if b = 46 then [] :: splitDots rest
    else
      match splitDots rest with
      | h :: t => (b :: h) :: t
      | [] => [[b]]

theorem splitDots_no (l : List Nat) (h : 46 ∉ l) : splitDots l = [l] := by
  induction l with
  | nil => simp [splitDots]
  | cons b rest ih =>
    have hb : b ≠ 46 := by
      intro hb
      exact h (by simp [hb])
    have hrest : 46 ∉ rest := fun hr => h (by simp [hr])
    simp [splitDots, hb, ih hrest]

theorem splitDots_startPart (a rest : List Nat) (ha : 46 ∉ a) :
    splitDots (a ++ 46 :: rest) = a :: splitDots rest := by
  induction a with
  | nil => simp [splitDots]
  | cons x xs ih =>
    have hx : x ≠ 46 := by
      intro hx
      exact ha (by simp [hx])
    have hxs : 46 ∉ xs := fun hr => ha (by simp [hr])
    rw [List.cons_append]
    simp [splitDots, hx, ih hxs]

/-- A three-part token with dot-free parts splits into exactly those parts. -/
theorem splitDots_three (a b c : List Nat) (ha : 46 ∉ a) (hb : 46 ∉ b) (hc : 46 ∉ c) :
    splitDots (a ++ 46 :: (b ++ 46 :: c)) = [a, b, c] := by
  rw [splitDots_startPart a _ ha, splitDots_startPart b _ hb, splitDots_no c hc]

set_option maxHeartbeats 1000000 in
theorem asciiBytes_typ : asciiBytes "typ" = [116, 121, 112] := by decide

set_option maxHeartbeats 1000000 in
theorem asciiBytes_alg : asciiBytes "alg" = [97, 108, 103] := by decide

set_option maxHeartbeats 1000000 in
theorem asciiBytes_jwk : asciiBytes "jwk" = [106, 119, 107] := by decide

set_option maxHeartbeats 1000000 in
theorem asciiBytes_nonce : asciiBytes "nonce" = [110, 111, 110, 99, 101] := by decide

set_option maxHeartbeats 1000000 in
theorem asciiBytes_JWT : asciiBytes "JWT" = [74, 87, 84] := by decide

set_option maxHeartbeats 1000000 in
theorem asciiBytes_RS256 : asciiBytes "RS256" = [82, 83, 50, 53, 54] := by decide

/-! ### JWebClient.prototype.createJWT (src/lib/jweb-client.js lines 78-112) -/

/-- The JWS protected header built by createJWT: typ, alg and jwk always, and
the nonce field exactly when a nonce was supplied (the source only sets
header.nonce when nonce is neither undefined nor null). Field order is
JavaScript object insertion order, which JSON.stringify preserves. -/
def jwsHeader (nonce : Option (List Nat)) (alg : List Nat) (jwk : Json) : Json :=
  Json.obj ([(asciiBytes "typ", Json.str (asciiBytes "JWT")),
             (asciiBytes "alg", Json.str alg),
             (asciiBytes "jwk", jwk)] ++
    (match nonce with
     | some n => [(asciiBytes "nonce", Json.str n)]
     | none => []))

/-- JWebClient.prototype.createJWT. The signer argument abstracts
jwa(alg).sign together with the prepared key (both live in the jwa and
base64url libraries, outside this repository); json_to_utf8base64url is
b64Encode composed with Json.ser, and the dot is byte 46. -/
def createJWT (nonce : Option (List Nat)) (payload : Json) (alg : List Nat)
    (sign : List Nat → List Nat) (jwk : Json) : List Nat :=
  let input := b64Encode (jwsHeader nonce alg jwk).ser ++ 46 :: b64Encode payload.ser
  input ++ 46 :: sign input

/-- Decoding of one base64url JWS part back to a JSON value. -/
def decodePart (part : List Nat) : Option Json :=
  (b64Decode part).bind decodeJson

theorem jwsHeader_wf (nonce : Option (List Nat)) (jwk : Json)
    (hjwk : Json.wfB jwk = true) (hn : ∀ n ∈ nonce, ∀ b ∈ n, b < 256) :
    Json.wfB (jwsHeader nonce (asciiBytes "RS256") jwk) = true := by
  cases nonce with
  | none =>
    rw [jwsHeader]
    rw [show Json.wfB (Json.obj ([(asciiBytes "typ", Json.str (asciiBytes "JWT")),
          (asciiBytes "alg", Json.str (asciiBytes "RS256")),
          (asciiBytes "jwk", jwk)] ++ [])) = fieldsWfB ([(asciiBytes "typ",
          Json.str (asciiBytes "JWT")), (asciiBytes "alg", Json.str (asciiBytes "RS256")),
          (asciiBytes "jwk", jwk)] ++ []) by simp [Json.wfB]]
    simp [fieldsWfB, Json.wfB, asciiBytes_typ, asciiBytes_alg, asciiBytes_jwk,
      asciiBytes_JWT, asciiBytes_RS256, hjwk]
  | some n =>
    have hn2 : n.all (fun b => b < 256) = true := by
      simp only [List.all_eq_true, decide_eq_true_eq]
      exact fun b hb => hn n rfl b hb
    rw [jwsHeader]
    rw [show Json.wfB (Json.obj ([(asciiBytes "typ", Json.str (asciiBytes "JWT")),
          (asciiBytes "alg", Json.str (asciiBytes "RS256")),
          (asciiBytes "jwk", jwk)] ++ [(asciiBytes "nonce", Json.str n)])) =
        fieldsWfB ([(asciiBytes "typ", Json.str (asciiBytes "JWT")),
          (asciiBytes "alg", Json.str (asciiBytes "RS256")),
          (asciiBytes "jwk", jwk)] ++ [(asciiBytes "nonce", Json.str n)]) by simp [Json.wfB]]
    simp [fieldsWfB, Json.wfB, asciiBytes_typ, asciiBytes_alg, asciiBytes_jwk,
      asciiBytes_JWT, asciiBytes_RS256, asciiBytes_nonce, hjwk, hn2]

/-- C6 (JWS round-trip): createJWT with algorithm RS256 emits a token of three
base64url parts separated by dots; base64url-decoding and JSON-parsing the
second part returns the payload, the first part returns the header; the header
carries typ JWT, alg RS256, the input jwk, and a nonce field exactly when a
nonce was supplied (the field is absent, not null, when the nonce is absent).
The key argument of the source is absorbed by the abstract signer, which is
assumed to produce dot-free base64url text as the jwa library does. -/
theorem createJWT_jws_round_trip (nonce : Option (List Nat)) (P jwk : Json)
    (sign : List Nat → List Nat)
    (hP : Json.wfB P = true) (hjwk : Json.wfB jwk = true)
    (hn : ∀ n ∈ nonce, ∀ b ∈ n, b < 256)
    (hsig : ∀ input, 46 ∉ sign input) :
    splitDots (createJWT nonce P (asciiBytes "RS256") sign jwk) =
      [b64Encode (jwsHeader nonce (asciiBytes "RS256") jwk).ser,
       b64Encode P.ser,
       sign (b64Encode (jwsHeader nonce (asciiBytes "RS256") jwk).ser ++
         46 :: b64Encode P.ser)] ∧
    decodePart (b64Encode P.ser) = some P ∧
    decodePart (b64Encode (jwsHeader nonce (asciiBytes "RS256") jwk).ser) =
      some (jwsHeader nonce (asciiBytes "RS256") jwk) ∧
    (jwsHeader nonce (asciiBytes "RS256") jwk).get (asciiBytes "typ") =
      some (.str (asciiBytes "JWT")) ∧
    (jwsHeader nonce (asciiBytes "RS256") jwk).get (asciiBytes "alg") =
      some (.str (asciiBytes "RS256")) ∧
    (jwsHeader nonce (asciiBytes "RS256") jwk).get (asciiBytes "jwk") = some jwk ∧
    (∀ n, nonce = some n →
      (jwsHeader nonce (asciiBytes "RS256") jwk).get (asciiBytes "nonce") =
        some (.str n)) ∧
    (nonce = none →
      (jwsHeader nonce (asciiBytes "RS256") jwk).get (asciiBytes "nonce") = none) := by
  have hwfh := jwsHeader_wf nonce jwk hjwk hn
  refine ⟨?_, ?_, ?_, ?_, ?_, ?_, ?_, ?_⟩
  · rw [createJWT]
    rw [List.append_assoc, List.cons_append]
    exact splitDots_three _ _ _ (b64Encode_not_46 _) (b64Encode_not_46 _) (hsig _)
  · rw [decodePart, b64Decode_encode _ (ser_lt P hP)]
    simp [decodeJson_ser]
  · rw [decodePart, b64Decode_encode _ (ser_lt _ hwfh)]
    simp [decodeJson_ser]
  · cases nonce <;>
      simp [jwsHeader, Json.get, asciiBytes_typ, asciiBytes_alg, asciiBytes_jwk,
        asciiBytes_nonce]
  · cases nonce <;>
      simp [jwsHeader, Json.get, asciiBytes_typ, asciiBytes_alg, asciiBytes_jwk,
        asciiBytes_nonce]
  · cases nonce <;>
      simp [jwsHeader, Json.get, asciiBytes_typ, asciiBytes_alg, asciiBytes_jwk,
        asciiBytes_nonce]
  · intro n hne
    subst hne
    simp [jwsHeader, Json.get, asciiBytes_typ, asciiBytes_alg, asciiBytes_jwk,
      asciiBytes_nonce]
  · intro hne
    subst hne
    simp [jwsHeader, Json.get, asciiBytes_typ, asciiBytes_alg, asciiBytes_jwk,
      asciiBytes_nonce]

/-- Witness for C6 at a concrete input: nonce bytes of the text N1, payload
an object with one field, a one-field jwk, and a constant dot-free signer. -/
theorem createJWT_jws_round_trip_witness :
    Json.wfB (Json.obj [([97], Json.str [120])]) = true ∧
    Json.wfB (Json.obj [([107], Json.str [82])]) = true ∧
    ((78 : Nat) < 256 ∧ (49 : Nat) < 256) ∧
    (46 : Nat) ∉ ([83, 73, 71] : List Nat) ∧
    decodePart (b64Encode (Json.obj [([97], Json.str [120])]).ser) =
      some (Json.obj [([97], Json.str [120])]) :=
  ⟨by simp [Json.wfB, fieldsWfB],
   by simp [Json.wfB, fieldsWfB],
   by decide,
   by decide,
   (createJWT_jws_round_trip (some [78, 49]) (Json.obj [([97], Json.str [120])])
      (Json.obj [([107], Json.str [82])]) (fun _ => [83, 73, 71])
      (by simp [Json.wfB, fieldsWfB]) (by simp [Json.wfB, fieldsWfB])
      (by intro n hn b hb; simp at hn; subst hn; simp at hb; rcases hb with hb | hb <;> omega)
      (fun _ => by show (46 : Nat) ∉ ([83, 73, 71] : List Nat); decide)).2.1⟩

/-! ### AcmeClient.prototype.makeKeyAuthorization
(src/lib/acme-client.js lines 848-868) -/

mutual

/-- JavaScript string coercion of a JSON value, as the + operator performs on
the challenge token: strings stay, primitives print their literals, arrays
join their coerced elements with commas (null elements become empty), and
plain objects print as their object tag text. -/
def jsToStrJ : Json → List Nat
  | .null => asciiBytes "null"
  | .bool true => asciiBytes "true"
  | .bool false => asciiBytes "false"
  | .num n => serNum n
  | .str s => s
  | .arr l => jsArrText l
  | .obj _ => asciiBytes "[object Object]"

/-- Array.prototype.toString: comma-joined coerced elements. -/
def jsArrText : List Json → List Nat
  | [] => []
  | x :: xs =>
    (match x with
     | .null => []
     | v => jsToStrJ v) ++
    (match xs with
     | [] => []
     | _ => 44 :: jsArrText xs)

end

/-- JavaScript string coercion of a possibly-undefined value: undefined
coerces to the text undefined. -/
def jsToStr : Option Json → List Nat
  | none => asciiBytes "undefined"
  | some v => jsToStrJ v

/-- AcmeClient.prototype.makeKeyAuthorization. The sha256 argument abstracts
crypto.createHash applied to the UTF-8 bytes of the serialized jwk (the crypto
module is outside this repository); base64url.encode is b64Encode. The jwk
object is built with the fields e, kty, n of the cached client profile public
key in that order; JSON.stringify drops fields whose value is undefined. A
non-object challenge returns the empty string; an object challenge with a
non-object public key falls through and returns undefined (none). -/
def makeKeyAuthorization (sha256 : List Nat → List Nat)
    (clientProfilePubKey : Option Json) (challenge : Option Json) :
    Option (List Nat) :=
  match challenge with
  | some ch =>
    if ch.isObj then
      match clientProfilePubKey with
      | some pk =>
        if pk.isObj then
          let jwk := Json.obj
            ((match pk.get (asciiBytes "e") with
              | some v => [(asciiBytes "e", v)]
              | none => []) ++
             (match pk.get (asciiBytes "kty") with
              | some v => [(asciiBytes "kty", v)]
              | none => []) ++
             (match pk.get (asciiBytes "n") with
              | some v => [(asciiBytes "n", v)]
              | none => []))
          some (jsToStr (ch.get (asciiBytes "token")) ++
            46 :: b64Encode (sha256 jwk.ser))
        else none
      | none => none
    else some []
  | none => some []

/-- C5 (key-authorization determinism): for a challenge object carrying token
T and a cached public key object with fields e, kty and n, the key
authorization is T, a dot, then the base64url encoding of the sha256 hash of
the UTF-8 serialization of the object with exactly the fields e, kty, n in
that order. The embedding is a pure function of the hash function, key and
challenge, so the result is identical across runs. -/
theorem makeKeyAuthorization_spec (sha256 : List Nat → List Nat)
    (pk ch : Json) (T : List Nat) (e kty n : Json)
    (hch : ch.isObj = true)
    (htok : ch.get (asciiBytes "token") = some (.str T))
    (hpk : pk.isObj = true)
    (he : pk.get (asciiBytes "e") = some e)
    (hkty : pk.get (asciiBytes "kty") = some kty)
    (hn : pk.get (asciiBytes "n") = some n) :
    makeKeyAuthorization sha256 (some pk) (some ch) =
      some (T ++ 46 :: b64Encode (sha256 (Json.ser (Json.obj
        [(asciiBytes "e", e), (asciiBytes "kty", kty), (asciiBytes "n", n)])))) := by
  rw [makeKeyAuthorization]
  simp [hch, hpk, he, hkty, hn, htok, jsToStr, jsToStrJ]

/-- Witness for C5 at the concrete input of the spec scenario S6: token abc
and public key fields e=d, kty=e, n=f, with the identity standing in for the
abstract hash. -/
theorem makeKeyAuthorization_spec_witness :
    (Json.obj [(asciiBytes "token", Json.str (asciiBytes "abc"))]).isObj = true ∧
    (Json.obj [(asciiBytes "token", Json.str (asciiBytes "abc"))]).get
      (asciiBytes "token") = some (.str (asciiBytes "abc")) ∧
    (Json.obj [(asciiBytes "e", Json.str (asciiBytes "d")),
      (asciiBytes "kty", Json.str (asciiBytes "e")),
      (asciiBytes "n", Json.str (asciiBytes "f"))]).isObj = true ∧
    makeKeyAuthorization (fun l => l)
      (some (Json.obj [(asciiBytes "e", Json.str (asciiBytes "d")),
        (asciiBytes "kty", Json.str (asciiBytes "e")),
        (asciiBytes "n", Json.str (asciiBytes "f"))]))
      (some (Json.obj [(asciiBytes "token", Json.str (asciiBytes "abc"))])) =
      some (asciiBytes "abc" ++ 46 :: b64Encode (Json.ser (Json.obj
        [(asciiBytes "e", Json.str (asciiBytes "d")),
         (asciiBytes "kty", Json.str (asciiBytes "e")),
         (asciiBytes "n", Json.str (asciiBytes "f"))]))) :=
  ⟨rfl, rfl, rfl,
   makeKeyAuthorization_spec (fun l => l) _ _ (asciiBytes "abc")
     (Json.str (asciiBytes "d")) (Json.str (asciiBytes "e")) (Json.str (asciiBytes "f"))
     rfl rfl rfl rfl rfl rfl⟩

/-! ### AcmeClient.prototype.makeSafeFileName
(src/lib/acme-client.js lines 667-678) -/

/-- Uppercase hex digit character, as charCodeAt(0).toString(16)
followed by toLocaleUpperCase produces. -/
def hexDigitUpper (d : Nat) : Char :=
  if d < 10 then Char.ofNat (48 + d) else Char.ofNat (55 + d)

/-- toString(16) of a UTF-16 code unit (below 65536, hence one to four hex
digits, no zero padding), uppercased. -/
def hexUpper (n : Nat) : List Char :=
  if n < 16 then [hexDigitUpper n]
  else if n < 256 then [hexDigitUpper (n / 16), hexDigitUpper (n % 16)]
  else if n < 4096 then
    [hexDigitUpper (n / 256), hexDigitUpper (n / 16 % 16), hexDigitUpper (n % 16)]
  else
    [hexDigitUpper (n / 4096), hexDigitUpper (n / 256 % 16),
     hexDigitUpper (n / 16 % 16), hexDigitUpper (n % 16)]

/-- The character class of regex_file: the nine punctuation characters, the
C0 controls, DEL, and the C1 range. -/
def forbiddenFile (c : Char) : Bool :=
  c = '<' || c = '>' || c = ':' || c = '"' || c = '/' || c = '\\' || c = '|' ||
  c = '?' || c = '*' || c.toNat ≤ 31 || c.toNat = 127 ||
  (128 ≤ c.toNat && c.toNat ≤ 159)

/-- The character class of regex_path: regex_file without the slash. -/
def forbiddenPath (c : Char) : Bool :=
  c = '<' || c = '>' || c = ':' || c = '"' || c = '\\' || c = '|' ||
  c = '?' || c = '*' || c.toNat ≤ 31 || c.toNat = 127 ||
  (128 ≤ c.toNat && c.toNat ≤ 159)

/-- Replacement of one character: a forbidden character becomes a percent sign
followed by its code point in uppercase hex, any other character is kept. -/
def encodeSafeChar (forbidden : Char → Bool) (c : Char) : List Char :=
  if forbidden c then '%' :: hexUpper c.toNat else [c]

/-- Character-list version of makeSafeFileName. -/
def encodeSafeList (forbidden : Char → Bool) (l : List Char) : List Char :=
  (l.map (encodeSafeChar forbidden)).flatten

/-- AcmeClient.prototype.makeSafeFileName: replace every character of the
forbidden class (regex_path when withPath, else regex_file) by a percent sign
and its code point in uppercase hex. -/
def makeSafeFileName (name : String) (withPath : Bool) : String :=
  ⟨encodeSafeList (if withPath then forbiddenPath else forbiddenFile) name.data⟩

theorem forbiddenFile_le (c : Char) (h : forbiddenFile c = true) : c.toNat ≤ 159 := by
  unfold forbiddenFile at h
  simp only [Bool.or_eq_true, Bool.and_eq_true, decide_eq_true_eq] at h
  rcases h with ((((((((((h | h) | h) | h) | h) | h) | h) | h) | h) | h) | h) | h <;>
    first
      | (subst h; decide)
      | omega

theorem forbiddenPath_le (c : Char) (h : forbiddenPath c = true) : c.toNat ≤ 159 := by
  unfold forbiddenPath at h
  simp only [Bool.or_eq_true, Bool.and_eq_true, decide_eq_true_eq] at h
  rcases h with (((((((((h | h) | h) | h) | h) | h) | h) | h) | h) | h) | h <;>
    first
      | (subst h; decide)
      | omega

set_option maxHeartbeats 1000000 in
theorem hexDigitUpper_safe (d : Nat) (hd : d < 16) :
    forbiddenFile (hexDigitUpper d) = false ∧ forbiddenPath (hexDigitUpper d) = false := by
  interval_cases d <;> exact ⟨by decide, by decide⟩

theorem hexUpper_safe (n : Nat) (hn : n ≤ 159) :
    ∀ c ∈ hexUpper n, forbiddenFile c = false ∧ forbiddenPath c = false := by
  intro c hc
  unfold hexUpper at hc
  split_ifs at hc with h1 h2 h3
  · simp at hc
    subst hc
    exact hexDigitUpper_safe n h1
  · simp at hc
    rcases hc with hc | hc <;> subst hc
    · exact hexDigitUpper_safe _ (by omega)
    · exact hexDigitUpper_safe _ (by omega)
  · omega
  · omega

set_option maxHeartbeats 1000000 in
theorem percent_safe : forbiddenFile '%' = false ∧ forbiddenPath '%' = false := by
  exact ⟨by decide, by decide⟩

/-- Characters produced by one replacement step are never themselves in
either forbidden class. -/
theorem encodeSafeChar_safe (f : Char → Bool)
    (hf : f = forbiddenPath ∨ f = forbiddenFile) (c : Char) :
    ∀ x ∈ encodeSafeChar f c, f x = false := by
  intro x hx
  unfold encodeSafeChar at hx
  split_ifs at hx with hc
  · simp at hx
    rcases hx with hx | hx
    · subst hx
      rcases hf with hf | hf <;> subst hf
      · exact percent_safe.2
      · exact percent_safe.1
    · have hle : c.toNat ≤ 159 := by
        rcases hf with hf | hf <;> subst hf
        · exact forbiddenPath_le c hc
        · exact forbiddenFile_le c hc
      have hsafe := hexUpper_safe c.toNat hle x hx
      rcases hf with hf | hf <;> subst hf
      · exact hsafe.2
      · exact hsafe.1
  · simp at hx
    subst hx
    simpa using hc

theorem encodeSafeList_fixed (f : Char → Bool) (l : List Char)
    (h : ∀ x ∈ l, f x = false) :
    encodeSafeList f l = l := by
  induction l with
  | nil => rfl
  | cons c cs ih =>
    unfold encodeSafeList at ih ⊢
    simp only [List.map_cons, List.flatten_cons]
    rw [ih (fun x hx => h x (by simp [hx]))]
    unfold encodeSafeChar
    rw [if_neg (by simp [h c (by simp)])]
    simp

theorem encodeSafeList_append (f : Char → Bool) (a b : List Char) :
    encodeSafeList f (a ++ b) = encodeSafeList f a ++ encodeSafeList f b := by
  unfold encodeSafeList
  simp

/-- C9 (safe-name encoding and idempotence): makeSafeFileName replaces exactly
the characters of the forbidden class (which, with path, is the same class
without the slash) by a percent sign and the code point in uppercase hex and
keeps all other characters; it is idempotent, and the two concrete examples of
the spec hold. -/
theorem makeSafeFileName_props :
    (∀ (s : String) (wp : Bool),
      makeSafeFileName (makeSafeFileName s wp) wp = makeSafeFileName s wp) ∧
    (∀ c : Char, forbiddenPath c = true ↔ (forbiddenFile c = true ∧ c ≠ '/')) ∧
    (∀ (s : String) (wp : Bool),
      (makeSafeFileName s wp).data =
        (s.data.map (fun c =>
          if (if wp then forbiddenPath else forbiddenFile) c
          then '%' :: hexUpper c.toNat else [c])).flatten) ∧
    makeSafeFileName "abc.def" false = "abc.def" ∧
    makeSafeFileName "/my/file\"| cat passwd" true = "/my/file%22%7C cat passwd" := by
  refine ⟨?_, ?_, ?_, ?_, ?_⟩
  · intro s wp
    have hf : (if wp then forbiddenPath else forbiddenFile) = forbiddenPath ∨
        (if wp then forbiddenPath else forbiddenFile) = forbiddenFile := by
      cases wp
      · right; rfl
      · left; rfl
    show (⟨encodeSafeList _ (String.data ⟨encodeSafeList _ s.data⟩)⟩ : String) = _
    have hdata : String.data ⟨encodeSafeList
        (if wp then forbiddenPath else forbiddenFile) s.data⟩ =
        encodeSafeList (if wp then forbiddenPath else forbiddenFile) s.data := rfl
    rw [hdata]
    have hfix : encodeSafeList (if wp then forbiddenPath else forbiddenFile)
        (encodeSafeList (if wp then forbiddenPath else forbiddenFile) s.data) =
        encodeSafeList (if wp then forbiddenPath else forbiddenFile) s.data := by
      induction s.data with
      | nil => rfl
      | cons c cs ih =>
        have hstep : encodeSafeList (if wp then forbiddenPath else forbiddenFile) (c :: cs) =
            encodeSafeChar (if wp then forbiddenPath else forbiddenFile) c ++
            encodeSafeList (if wp then forbiddenPath else forbiddenFile) cs := by
          unfold encodeSafeList
          simp
        rw [hstep, encodeSafeList_append, ih,
          encodeSafeList_fixed _ _ (encodeSafeChar_safe _ hf c)]
    rw [hfix]
    rfl
  · intro c
    constructor
    · intro h
      refine ⟨?_, ?_⟩
      · unfold forbiddenPath at h
        unfold forbiddenFile
        simp only [Bool.or_eq_true] at h ⊢
        tauto
      · intro hsl
        subst hsl
        revert h
        decide
    · rintro ⟨hf, hne⟩
      unfold forbiddenFile at hf
      unfold forbiddenPath
      simp only [Bool.or_eq_true, Bool.and_eq_true, decide_eq_true_eq] at hf ⊢
      rcases hf with ((((((((((h | h) | h) | h) | h) | h) | h) | h) | h) | h) | h) | h <;>
        first
          | (exact absurd h hne)
          | tauto
  · intro s wp
    rfl
  · decide
  · decide

/-! ### The transport view: responses and the nonce cache
(src/lib/jweb-client.js lines 235-289) -/

/-- The value a transport callback receives as its answer argument: a parsed
JSON value when the response was JSON, otherwise the raw bytes as a Buffer. -/
inductive RAns where
  | json (j : Json) : RAns
  | buf (bytes : List Nat) : RAns
deriving Repr

/-- instanceof Object on a callback answer: parsed objects and arrays are
JavaScript objects, and so is every Buffer. -/
def RAns.isObj : RAns → Bool
  | .json j => j.isObj
  | .buf _ => true

/-- Property access on a callback answer: Buffers have none of the properties
the client reads. -/
def RAns.get (a : RAns) (key : List Nat) : Option Json :=
  match a with
  | .json j => j.get key
  | .buf _ => none

/-- An HTTPS response as the client observes it: status code, headers and the
decoded body. -/
structure HResp where
  statusCode : Int
  headers : List (String × String)
  ans : RAns
deriving Repr

/-- Header lookup, as res.headers[name]: undefined when absent. -/
def hdr (r : HResp) (name : String) : Option String :=
  (r.headers.find? (fun kv => kv.1 == name)).map (·.2)

/-- The replay-nonce header of a response. -/
def nonceOf (r : HResp) : Option String :=
  hdr r "replay-nonce"

/-- JWebClient.prototype.get, restricted to its effect on the nonce cache:
the callback assigns last_nonce from the response replay-nonce header
unconditionally, so an absent header stores undefined (none). -/
def getNonceStep (lastNonce : Option String) (r : HResp) : Option String :=
  nonceOf r

/-- JWebClient.prototype.post, restricted to the nonce discipline: the request
is signed with the cached nonce (first component), then the callback replaces
the cache with the response replay-nonce (second component), on success and
on failure alike since the assignment precedes status interpretation. -/
def postNonceStep (lastNonce : Option String) (r : HResp) :
    Option String × Option String :=
  (lastNonce, nonceOf r)

/-- The nonces used for signing by a sequence of POSTs whose responses arrive
in order, starting from a given cache. -/
def postNonceSeq (lastNonce : Option String) : List HResp → List (Option String)
  | [] => []
  | r :: rs =>
    (postNonceStep lastNonce r).1 :: postNonceSeq (postNonceStep lastNonce r).2 rs

/-- The cache after a mixed sequence of GETs and POSTs (true marks a POST). -/
def transportNonceSeq (lastNonce : Option String) :
    List (Bool × HResp) → Option String
  | [] => lastNonce
  | (isPost, r) :: ops =>
    transportNonceSeq
      (if isPost then (postNonceStep lastNonce r).2 else getNonceStep lastNonce r) ops

theorem postNonceSeq_closed (init : Option String) (rs : List HResp) :
    postNonceSeq init rs = (init :: rs.map nonceOf).take rs.length := by
  induction rs generalizing init with
  | nil => rfl
  | cons r rs ih =>
    rw [postNonceSeq, ih]
    simp [postNonceStep, List.take_succ_cons]

/-- C1 (nonce freshness): the nonce signing POST n+1 is the replay-nonce of
response n (the used-nonce sequence is the response-nonce sequence shifted by
the initial cache); after every POST the cache holds exactly the new response
nonce, success or failure; and when the server never repeats a nonce value
(and does not reissue the initial one), no nonce value signs two POSTs. -/
theorem nonce_freshness (init : Option String) (rs : List HResp) :
    postNonceSeq init rs = (init :: rs.map nonceOf).take rs.length ∧
    (∀ last r, (postNonceStep last r).2 = nonceOf r ∧ (postNonceStep last r).1 = last) ∧
    (((init :: rs.map nonceOf).filterMap id).Nodup →
      ((postNonceSeq init rs).filterMap id).Nodup) := by
  refine ⟨postNonceSeq_closed init rs, fun last r => ⟨rfl, rfl⟩, ?_⟩
  intro h
  rw [postNonceSeq_closed init rs]
  exact h.sublist ((List.take_sublist _ _).filterMap id)

/-- Witness for C1: three responses carrying nonces b, none, c after initial
nonce a; the used nonces are a, b, none and are pairwise distinct values. -/
theorem nonce_freshness_witness :
    (((some "a" :: ([(⟨200, [("replay-nonce", "b")], .json (Json.obj [])⟩ : HResp),
        ⟨200, [], .json (Json.obj [])⟩,
        ⟨200, [("replay-nonce", "c")], .json (Json.obj [])⟩].map nonceOf)).filterMap id).Nodup) ∧
    ((postNonceSeq (some "a")
      [⟨200, [("replay-nonce", "b")], .json (Json.obj [])⟩,
       ⟨200, [], .json (Json.obj [])⟩,
       ⟨200, [("replay-nonce", "c")], .json (Json.obj [])⟩]).filterMap id).Nodup :=
  ⟨by simp [nonceOf, hdr],
   (nonce_freshness (some "a")
     [⟨200, [("replay-nonce", "b")], .json (Json.obj [])⟩,
      ⟨200, [], .json (Json.obj [])⟩,
      ⟨200, [("replay-nonce", "c")], .json (Json.obj [])⟩]).2.2
     (by simp [nonceOf, hdr])⟩

/-- C10 (implicit nonce-cache clearing): after every delivered GET or POST
response the cache equals that response's replay-nonce header, so a response
without the header overwrites the cache with undefined rather than retaining
it; over any mixed sequence the final cache is the last response's header
value (or the initial cache if no request was made). -/
theorem nonce_cache_overwrite :
    (∀ last r, getNonceStep last r = nonceOf r) ∧
    (∀ last r, (postNonceStep last r).2 = nonceOf r) ∧
    (∀ last r, nonceOf r = none →
      getNonceStep last r = none ∧ (postNonceStep last r).2 = none) ∧
    (∀ init ops, transportNonceSeq init ops =
      (ops.getLast?.map (fun p => nonceOf p.2)).getD init) := by
  refine ⟨fun _ _ => rfl, fun _ _ => rfl, fun last r h => ⟨h, h⟩, ?_⟩
  intro init ops
  induction ops generalizing init with
  | nil => rfl
  | cons op ops ih =>
    obtain ⟨isPost, r⟩ := op
    rw [transportNonceSeq, ih]
    cases ops with
    | nil => cases isPost <;> simp [getNonceStep, postNonceStep]
    | cons op2 ops2 =>
      obtain ⟨z, hz⟩ : ∃ z, (op2 :: ops2).getLast? = some z := by
        cases hc : (op2 :: ops2).getLast? with
        | none => exact absurd hc (by simp)
        | some z => exact ⟨z, rfl⟩
      simp [hz]

/-- Witness for C10: a cached nonce n1 does not survive a nonce-less
response. -/
theorem nonce_cache_overwrite_witness :
    nonceOf (⟨200, [("content-type", "application/json")], .json (Json.obj [])⟩ : HResp) = none ∧
    getNonceStep (some "n1") ⟨200, [("content-type", "application/json")], .json (Json.obj [])⟩ = none ∧
    (postNonceStep (some "n1")
      ⟨200, [("content-type", "application/json")], .json (Json.obj [])⟩).2 = none :=
  ⟨rfl,
   (nonce_cache_overwrite.2.2.1 (some "n1")
     ⟨200, [("content-type", "application/json")], .json (Json.obj [])⟩ rfl).1,
   (nonce_cache_overwrite.2.2.1 (some "n1")
     ⟨200, [("content-type", "application/json")], .json (Json.obj [])⟩ rfl).2⟩

set_option maxHeartbeats 1000000 in
theorem asciiBytes_challenges : asciiBytes "challenges" = [99, 104, 97, 108, 108, 101, 110, 103, 101, 115] := by decide

set_option maxHeartbeats 1000000 in
theorem asciiBytes_type : asciiBytes "type" = [116, 121, 112, 101] := by decide

set_option maxHeartbeats 1000000 in
theorem asciiBytes_http_01 : asciiBytes "http-01" = [104, 116, 116, 112, 45, 48, 49] := by decide

set_option maxHeartbeats 1000000 in
theorem asciiBytes_token : asciiBytes "token" = [116, 111, 107, 101, 110] := by decide

set_option maxHeartbeats 1000000 in
theorem asciiBytes_uri : asciiBytes "uri" = [117, 114, 105] := by decide

set_option maxHeartbeats 1000000 in
theorem asciiBytes_contact : asciiBytes "contact" = [99, 111, 110, 116, 97, 99, 116] := by decide

set_option maxHeartbeats 1000000 in
theorem asciiBytes_mailto_c : asciiBytes "mailto:" = [109, 97, 105, 108, 116, 111, 58] := by decide

set_option maxHeartbeats 1000000 in
theorem asciiBytes_status : asciiBytes "status" = [115, 116, 97, 116, 117, 115] := by decide

set_option maxHeartbeats 1000000 in
theorem asciiBytes_pending : asciiBytes "pending" = [112, 101, 110, 100, 105, 110, 103] := by decide

set_option maxHeartbeats 1000000 in
theorem asciiBytes_valid : asciiBytes "valid" = [118, 97, 108, 105, 100] := by decide

set_option maxHeartbeats 1000000 in
theorem asciiBytes_resource : asciiBytes "resource" = [114, 101, 115, 111, 117, 114, 99, 101] := by decide

set_option maxHeartbeats 1000000 in
theorem asciiBytes_new_reg : asciiBytes "new-reg" = [110, 101, 119, 45, 114, 101, 103] := by decide

set_option maxHeartbeats 1000000 in
theorem asciiBytes_new_authz : asciiBytes "new-authz" = [110, 101, 119, 45, 97, 117, 116, 104, 122] := by decide

set_option maxHeartbeats 1000000 in
theorem asciiBytes_reg : asciiBytes "reg" = [114, 101, 103] := by decide

set_option maxHeartbeats 1000000 in
theorem asciiBytes_key : asciiBytes "key" = [107, 101, 121] := by decide

set_option maxHeartbeats 1000000 in
theorem asciiBytes_Agreement : asciiBytes "Agreement" = [65, 103, 114, 101, 101, 109, 101, 110, 116] := by decide

set_option maxHeartbeats 1000000 in
theorem asciiBytes_identifier : asciiBytes "identifier" = [105, 100, 101, 110, 116, 105, 102, 105, 101, 114] := by decide

set_option maxHeartbeats 1000000 in
theorem asciiBytes_dns : asciiBytes "dns" = [100, 110, 115] := by decide

set_option maxHeartbeats 1000000 in
theorem asciiBytes_value : asciiBytes "value" = [118, 97, 108, 117, 101] := by decide

set_option maxHeartbeats 1000000 in
theorem asciiBytes_keyAuthorization : asciiBytes "keyAuthorization" = [107, 101, 121, 65, 117, 116, 104, 111, 114, 105, 122, 97, 116, 105, 111, 110] := by decide

set_option maxHeartbeats 1000000 in
theorem asciiBytes_challenge : asciiBytes "challenge" = [99, 104, 97, 108, 108, 101, 110, 103, 101] := by decide

set_option maxHeartbeats 1000000 in
theorem asciiBytes_tel_c_p1234 : asciiBytes "tel:+1234" = [116, 101, 108, 58, 43, 49, 50, 51, 52] := by decide

set_option maxHeartbeats 1000000 in
theorem asciiBytes_mailto_cinfo_atexample_dcom : asciiBytes "mailto:info@example.com" = [109, 97, 105, 108, 116, 111, 58, 105, 110, 102, 111, 64, 101, 120, 97, 109, 112, 108, 101, 46, 99, 111, 109] := by decide

set_option maxHeartbeats 1000000 in
theorem asciiBytes_info_atexample_dcom : asciiBytes "info@example.com" = [105, 110, 102, 111, 64, 101, 120, 97, 109, 112, 108, 101, 46, 99, 111, 109] := by decide

set_option maxHeartbeats 1000000 in
theorem asciiBytes_mailto_ca_atx_dorg : asciiBytes "mailto:a@x.org" = [109, 97, 105, 108, 116, 111, 58, 97, 64, 120, 46, 111, 114, 103] := by decide

set_option maxHeartbeats 1000000 in
theorem asciiBytes_mailto_cb_aty_dorg : asciiBytes "mailto:b@y.org" = [109, 97, 105, 108, 116, 111, 58, 98, 64, 121, 46, 111, 114, 103] := by decide

set_option maxHeartbeats 1000000 in
theorem asciiBytes_a_atx_dorg : asciiBytes "a@x.org" = [97, 64, 120, 46, 111, 114, 103] := by decide

set_option maxHeartbeats 1000000 in
theorem asciiBytes_b_aty_dorg : asciiBytes "b@y.org" = [98, 64, 121, 46, 111, 114, 103] := by decide

set_option maxHeartbeats 1000000 in
theorem asciiBytes_tls_sni_01 : asciiBytes "tls-sni-01" = [116, 108, 115, 45, 115, 110, 105, 45, 48, 49] := by decide

/-! ### AcmeClient pure helpers: selectChallenge and extractEmail
(src/lib/acme-client.js lines 784-798 and 805-822) -/

/-- AcmeClient.prototype.selectChallenge: when the answer has a challenges
array, filter it by type equality and pop the result. Array.prototype.pop
removes and returns the LAST element, although the source comment says it
returns the first match. The type comparison is the loose JavaScript equality
between the entry type and the requested type string, which on string-typed
entries is string equality. -/
def selectChallenge (ans : Json) (challenge_type : List Nat) : Option Json :=
  match ans.get (asciiBytes "challenges") with
  | some (.arr l) =>
    (l.filter (fun e =>
      match e.get (asciiBytes "type") with
      | some (.str t) => t == challenge_type
      | _ => false)).getLast?
  | _ => none

/-- AcmeClient.prototype.extractEmail: keep the string contacts starting with
the mailto prefix, pop the LAST of them (the doc comment says the first found
email), and strip the seven-byte prefix; undefined when the profile is not an
object with a contact array or no entry matches. -/
def extractEmail (profile : Option Json) : Option (List Nat) :=
  match profile with
  | some p =>
    match p.get (asciiBytes "contact") with
    | some (.arr l) =>
      match (l.filter (fun e =>
        match e with
        | .str s => s.take 7 == asciiBytes "mailto:"
        | _ => false)).getLast? with
      | some (.str s) => some (s.drop 7)
      | _ => none
    | _ => none
  | none => none

/-- C3 evaluated at the failing input (code bug): with two http-01 challenges
offered, selectChallenge returns the second one, not the first as the spec and
the source comment state; the first filter match is indeed the first
challenge, and with no http-01 challenge the result is undefined. -/
theorem selectChallenge_returns_last :
    selectChallenge (Json.obj [(asciiBytes "challenges", Json.arr
        [Json.obj [(asciiBytes "type", Json.str (asciiBytes "http-01")),
                   (asciiBytes "token", Json.str [116, 49])],
         Json.obj [(asciiBytes "type", Json.str (asciiBytes "http-01")),
                   (asciiBytes "token", Json.str [116, 50])]])])
      (asciiBytes "http-01") =
      some (Json.obj [(asciiBytes "type", Json.str (asciiBytes "http-01")),
                      (asciiBytes "token", Json.str [116, 50])]) ∧
    Json.obj [(asciiBytes "type", Json.str (asciiBytes "http-01")),
              (asciiBytes "token", Json.str [116, 50])] ≠
      Json.obj [(asciiBytes "type", Json.str (asciiBytes "http-01")),
                (asciiBytes "token", Json.str [116, 49])] ∧
    ([Json.obj [(asciiBytes "type", Json.str (asciiBytes "http-01")),
                (asciiBytes "token", Json.str [116, 49])],
      Json.obj [(asciiBytes "type", Json.str (asciiBytes "http-01")),
                (asciiBytes "token", Json.str [116, 50])]].filter (fun e =>
        match e.get (asciiBytes "type") with
        | some (.str t) => t == asciiBytes "http-01"
        | _ => false)).head? =
      some (Json.obj [(asciiBytes "type", Json.str (asciiBytes "http-01")),
                      (asciiBytes "token", Json.str [116, 49])]) ∧
    selectChallenge (Json.obj [(asciiBytes "challenges", Json.arr
        [Json.obj [(asciiBytes "type", Json.str (asciiBytes "tls-sni-01")),
                   (asciiBytes "token", Json.str [116, 49])]])])
      (asciiBytes "http-01") = none := by
  refine ⟨?_, ?_, ?_, ?_⟩
  · simp [selectChallenge, Json.get, asciiBytes_challenges, asciiBytes_type,
      asciiBytes_token, asciiBytes_http_01]
  · simp [asciiBytes_type, asciiBytes_token, asciiBytes_http_01]
  · simp [Json.get, asciiBytes_type, asciiBytes_token, asciiBytes_http_01]
  · simp [selectChallenge, Json.get, asciiBytes_challenges, asciiBytes_type,
      asciiBytes_token, asciiBytes_http_01, asciiBytes_tls_sni_01]

/-- C8 evaluated at the failing input (code bug): the spec scenario with one
mailto contact holds, but with two mailto contacts extractEmail returns the
last one, not the first as the spec and the doc comment state. -/
theorem extractEmail_returns_last :
    extractEmail (some (Json.obj [(asciiBytes "contact", Json.arr
        [Json.str (asciiBytes "tel:+1234"), Json.null,
         Json.str (asciiBytes "mailto:info@example.com")])])) =
      some (asciiBytes "info@example.com") ∧
    extractEmail (some (Json.obj [(asciiBytes "contact", Json.arr
        [Json.str (asciiBytes "mailto:a@x.org"),
         Json.str (asciiBytes "mailto:b@y.org")])])) =
      some (asciiBytes "b@y.org") ∧
    asciiBytes "b@y.org" ≠ asciiBytes "a@x.org" ∧
    extractEmail none = none := by
  refine ⟨?_, ?_, ?_, rfl⟩
  · simp [extractEmail, Json.get, asciiBytes_contact, asciiBytes_tel_c_p1234,
      asciiBytes_mailto_cinfo_atexample_dcom, asciiBytes_info_atexample_dcom,
      asciiBytes_mailto_c]
  · simp [extractEmail, Json.get, asciiBytes_contact, asciiBytes_mailto_ca_atx_dorg,
      asciiBytes_mailto_cb_aty_dorg, asciiBytes_b_aty_dorg, asciiBytes_mailto_c]
  · simp [asciiBytes_b_aty_dorg, asciiBytes_a_atx_dorg]


/-! ### The ACME engine as a script-driven state machine

The engine methods are continuation-passing; each HTTPS request completes
with the next response of a script (the list of server responses, delivered
in request order). The runner below consumes the script exactly as the source
chains its callbacks and tracks the client state the claims mention. Request
bodies and URIs do not influence this control flow (the script decides every
response), so the runner stores the cached state instead of rebuilding
payloads, and records the agreeTos argument so the theorems can speak about
the cached terms-of-service link. -/

/-- AcmeClient.prototype.getTosLink (lines 765-776): first match of the regex
capturing the text between an opening angle bracket and the next closing one,
when that closing bracket is followed by the literal rel attribute. -/
def findTos : List Char → Option (List Char)
  | [] => none
  | c :: rest =>
    if c = '<' then
      let middle := rest.takeWhile (fun d => !(d = '>'))
      let after := rest.dropWhile (fun d => !(d = '>'))
      match after with
      | '>' :: suffix =>
        if middle ≠ [] ∧ (";rel=\"terms-of-service\"").data.isPrefixOf suffix then
          some middle
        else findTos rest
      | _ => findTos rest
    else findTos rest

/-- getTosLink on a header string. -/
def getTosLink (s : String) : Option String :=
  (findTos s.data).map (fun l => ⟨l⟩)

/-- The cached engine state the claims mention. -/
structure AcmeState where
  directory : RAns
  regLink : Option String
  tosLink : Option String
  clientProfilePubKey : Option Json
deriving Repr

/-- A fresh AcmeClient: empty directory object, no registration link, no TOS
link, empty profile key object. -/
def initialState : AcmeState :=
  ⟨.json (Json.obj []), none, none, some (Json.obj [])⟩

/-- AcmeClient.prototype.getRegistration (lines 161-195), driven by one
response: on an object (or Buffer) answer it caches the key field as the
profile public key, refreshes the TOS link from the link header (clearing it
when absent or not matching), and reports the answer and response; otherwise
it reports false (modelled as none) without a response. The outer none is an
exhausted script. -/
def runGetRegistration (st : AcmeState) (script : List HResp) :
    Option ((Option (RAns × HResp)) × AcmeState × List HResp) :=
  match script with
  | [] => none
  | r :: rest =>
    if r.ans.isObj then
      let st2 : AcmeState :=
        { st with
          clientProfilePubKey := r.ans.get (asciiBytes "key"),
          tosLink :=
            match hdr r "link" with
            | some linkStr => getTosLink linkStr
            | none => none }
      some (some (r.ans, r), st2, rest)
    else some (none, st, rest)

/-- AcmeClient.prototype.getProfile (lines 457-486): get the directory (an
answer that is not an object fails), cache it, probe new-reg for the location
header (no location fails), cache the registration link, then getRegistration
on it. -/
def runGetProfile (st : AcmeState) (script : List HResp) :
    Option ((Option (RAns × HResp)) × AcmeState × List HResp) :=
  match script with
  | [] => none
  | r1 :: rest1 =>
    if r1.ans.isObj then
      let st1 := { st with directory := r1.ans }
      match rest1 with
      | [] => none
      | r2 :: rest2 =>
        match hdr r2 "location" with
        | some loc => runGetRegistration { st1 with regLink := some loc } rest2
        | none => some (none, st1, rest2)
    else some (none, st, rest1)

/-- Observable result of an engine run: callback with the final answer,
callback with false, or a run that never calls back because the script ran
out. -/
inductive Outcome where
  | success (ans : RAns) : Outcome
  | failure : Outcome
  | stuck : Outcome
deriving Repr

/-- Poller bookkeeping: outcome, number of GETs issued, and the scheduled
delays in milliseconds, in order. -/
structure PollRun where
  out : Outcome
  gets : Nat
  delays : List Nat
deriving Repr

/-- AcmeClient.prototype.pollUntilValid (lines 303-342): normalize the retry
factor to 1, stop in failure once it exceeds 128, otherwise GET; a non-object
answer fails, a pending status schedules a retry after factor times 500
milliseconds with the factor doubled, anything else completes with the
answer. Buffers are JavaScript objects without a status field, so they
complete. -/
def runPollUntilValid (retry : Nat) (script : List HResp) : PollRun × List HResp :=
  let r := if retry = 0 then 1 else retry
  if r > 128 then (⟨.failure, 0, []⟩, script)
  else
    match script with
    | [] => (⟨.stuck, 0, []⟩, [])
    | resp :: rest =>
      if resp.ans.isObj then
        match resp.ans.get (asciiBytes "status") with
        | some (.str s) =>
          if s == asciiBytes "pending" then
            let next := runPollUntilValid (r * 2) rest
            (⟨next.1.out, next.1.gets + 1, r * 500 :: next.1.delays⟩, next.2)
          else (⟨.success resp.ans, 1, []⟩, rest)
        | _ => (⟨.success resp.ans, 1, []⟩, rest)
      else (⟨.failure, 1, []⟩, rest)

/-- AcmeClient.prototype.pollUntilIssued (lines 351-390): same schedule; a
non-empty Buffer answer completes with the certificate, otherwise a status
below 400 reschedules and anything else fails. -/
def runPollUntilIssued (retry : Nat) (script : List HResp) : PollRun × List HResp :=
  let r := if retry = 0 then 1 else retry
  if r > 128 then (⟨.failure, 0, []⟩, script)
  else
    match script with
    | [] => (⟨.stuck, 0, []⟩, [])
    | resp :: rest =>
      match resp.ans with
      | .buf b =>
        if b.length > 0 then (⟨.success (.buf b), 1, []⟩, rest)
        else if resp.statusCode < 400 then
          let next := runPollUntilIssued (r * 2) rest
          (⟨next.1.out, next.1.gets + 1, r * 500 :: next.1.delays⟩, next.2)
        else (⟨.failure, 1, []⟩, rest)
      | .json _ =>
        if resp.statusCode < 400 then
          let next := runPollUntilIssued (r * 2) rest
          (⟨next.1.out, next.1.gets + 1, r * 500 :: next.1.delays⟩, next.2)
        else (⟨.failure, 1, []⟩, rest)

/-- Result of one authorizeDomain run: outcome, final state, unconsumed
script, and the tosLink argument of every agreeTos call, in order. -/
structure ADRun where
  out : Outcome
  st : AcmeState
  rest : List HResp
  agreeCalls : List (Option String)

/-- AcmeClient.prototype.authorizeDomain (lines 203-278): get the profile
(failure reports false); POST new-authz; on status 403 agree to the cached
TOS link via getRegistration and restart the whole method when the agreement
response status lies between 200 and 400 inclusive, otherwise fail; on any
other status require a location header and an object answer, select the
http-01 challenge (failure otherwise), prepare it (the file write does not
influence control flow), POST the challenge acceptance, and poll the location
URI when the acceptance status is below 400. The source recursion is
unbounded; fuel counts the TOS restarts a run may still take. -/
def runAuthorizeDomain (fuel : Nat) (st : AcmeState) (script : List HResp) : ADRun :=
  match fuel with
  | 0 => ⟨.stuck, st, script, []⟩
  | fuel + 1 =>
    match runGetProfile st script with
    | none => ⟨.stuck, st, [], []⟩
    | some (none, st1, rest) => ⟨.failure, st1, rest, []⟩
    | some (some _, st1, rest) =>
      match rest with
      | [] => ⟨.stuck, st1, [], []⟩
      | r4 :: rest4 =>
        if r4.statusCode = 403 then
          match runGetRegistration st1 rest4 with
          | none => ⟨.stuck, st1, [], [st1.tosLink]⟩
          | some (some (_, res2), st5, rest5) =>
            if 200 ≤ res2.statusCode ∧ res2.statusCode ≤ 400 then
              let sub := runAuthorizeDomain fuel st5 rest5
              ⟨sub.out, sub.st, sub.rest, st1.tosLink :: sub.agreeCalls⟩
            else ⟨.failure, st5, rest5, [st1.tosLink]⟩
          | some (none, st5, rest5) => ⟨.failure, st5, rest5, [st1.tosLink]⟩
        else
          if (hdr r4 "location").isSome ∧ r4.ans.isObj then
            match
              (match r4.ans with
               | .json a => selectChallenge a (asciiBytes "http-01")
               | .buf _ => none) with
            | some ch =>
              if ch.isObj then
                match rest4 with
                | [] => ⟨.stuck, st1, [], []⟩
                | r5 :: rest5 =>
                  if r5.statusCode < 400 then
                    let p := runPollUntilValid 1 rest5
                    ⟨p.1.out, st1, p.2, []⟩
                  else ⟨.failure, st1, rest5, []⟩
              else ⟨.failure, st1, rest4, []⟩
            | none => ⟨.failure, st1, rest4, []⟩
          else ⟨.failure, st1, rest4, []⟩

/-- Requests the client issues (URI as the JavaScript value it posts to). -/
inductive Req where
  | get (uri : String)
  | post (uri : Option Json) (payload : Json)

/-- Discriminator for GET requests in a trace. -/
def Req.isGet : Req → Bool
  | .get _ => true
  | .post _ _ => false

/-- AcmeClient.prototype.createAccount (lines 494-523): one new_registration
POST to the new-reg directory entry with the contact list and the appended
resource field; succeeds returning the location header exactly when the
status is 201 and the header is present, caching it as the registration
link. No directory fetch happens here (getDirectory is the caller's step;
the CLI reg command performs it before calling createAccount). The payload
is the contact object literal with the resource field newRegistration
appends. -/
def createAccountPayload (email : String) : Json :=
  Json.obj
    [(asciiBytes "contact", Json.arr [Json.str (asciiBytes ("mailto:" ++ email))]),
     (asciiBytes "resource", Json.str (asciiBytes "new-reg"))]

/-- The createAccount run itself: one POST, driven by one scripted response. -/
def runCreateAccount (email : String) (st : AcmeState) (script : List HResp) :
    Option ((Option String) × AcmeState × List HResp × List Req) :=
  let req := Req.post (st.directory.get (asciiBytes "new-reg")) (createAccountPayload email)
  match script with
  | [] => none
  | r :: rest =>
    if r.statusCode = 201 then
      match hdr r "location" with
      | some loc => some (some loc, { st with regLink := some loc }, rest, [req])
      | none => some (none, st, rest, [req])
    else some (none, st, rest, [req])

/-! ### Concrete server scripts for the engine claims -/

/-- A JSON-bodied response. -/
def jresp (code : Int) (hs : List (String × String)) (j : Json) : HResp :=
  ⟨code, hs, .json j⟩

/-- The directory lookup answer (contents are irrelevant to control flow). -/
def dirResp : HResp := jresp 200 [] (Json.obj [])

/-- The new-reg probe answer carrying the registration location. -/
def newregResp : HResp := jresp 201 [("location", "https://ca/reg/1")] (Json.obj [])

/-- The registration answer carrying the terms-of-service link header. -/
def profileResp : HResp :=
  jresp 202 [("link", "<https://ca/tos>;rel=\"terms-of-service\"")] (Json.obj [])

/-- What one getProfile pass consumes. -/
def profileScript : List HResp := [dirResp, newregResp, profileResp]

/-- A new-authz rejection. -/
def authz403 : HResp := jresp 403 [] (Json.obj [])

/-- An agreement (agreeTos) answer with the given status. -/
def agreeResp (s : Int) : HResp := jresp s [] (Json.obj [])

/-- The single http-01 challenge the server offers. -/
def chalHttp : Json := Json.obj [(asciiBytes "type", Json.str (asciiBytes "http-01"))]

/-- A new-authz answer with a polling location and the challenge list. -/
def authzOK : HResp :=
  jresp 201 [("location", "https://ca/authz/1")]
    (Json.obj [(asciiBytes "challenges", Json.arr [chalHttp])])

/-- The challenge-acceptance confirmation. -/
def acceptResp : HResp := jresp 202 [] (Json.obj [])

/-- The polled status once the challenge is valid. -/
def validAns : Json := Json.obj [(asciiBytes "status", Json.str (asciiBytes "valid"))]

/-- The poll answer closing the authorization. -/
def validResp : HResp := jresp 200 [] validAns

/-- What the authorization consumes after the profile: the challenge list,
the acceptance confirmation and one poll round. -/
def authzTail : List HResp := [authzOK, acceptResp, validResp]

/-- A poll answer that is perpetually pending. -/
def pendingResp : HResp :=
  jresp 200 [] (Json.obj [(asciiBytes "status", Json.str (asciiBytes "pending"))])

/-- A sub-400 poll answer with an empty Buffer body. -/
def emptyResp : HResp := ⟨200, [], .buf []⟩


/-! ### Claim theorems for the engine state machine -/

theorem runPollUntilValid_stop (retry : Nat) (script : List HResp) (h : 128 < retry) :
    runPollUntilValid retry script = (⟨.failure, 0, []⟩, script) := by
  have h0 : ¬ retry = 0 := by omega
  cases script <;> simp [runPollUntilValid, h0, h]

theorem runPollUntilIssued_stop (retry : Nat) (script : List HResp) (h : 128 < retry) :
    runPollUntilIssued retry script = (⟨.failure, 0, []⟩, script) := by
  have h0 : ¬ retry = 0 := by omega
  cases script <;> simp [runPollUntilIssued, h0, h]

set_option maxHeartbeats 1600000 in
/-- C4: both pollers normalize a zero retry factor to one, stop in failure as
soon as the factor exceeds 128 without issuing a request, and on a server that
perpetually answers pending (respectively a sub-400 status with an empty
body) they issue exactly 8 GETs with the doubling delays 500ms..64000ms,
127.5 seconds in total, below 128 seconds. -/
theorem pollers_terminate :
    (∀ n, 8 ≤ n → runPollUntilValid 1 (List.replicate n pendingResp) =
      (⟨.failure, 8, [500, 1000, 2000, 4000, 8000, 16000, 32000, 64000]⟩,
       List.replicate (n - 8) pendingResp)) ∧
    (∀ n, 8 ≤ n → runPollUntilIssued 1 (List.replicate n emptyResp) =
      (⟨.failure, 8, [500, 1000, 2000, 4000, 8000, 16000, 32000, 64000]⟩,
       List.replicate (n - 8) emptyResp)) ∧
    ([500, 1000, 2000, 4000, 8000, 16000, 32000, 64000].sum = 127500 ∧
      (127500 : Nat) < 128000) ∧
    (∀ retry script, 128 < retry →
      runPollUntilValid retry script = (⟨.failure, 0, []⟩, script) ∧
      runPollUntilIssued retry script = (⟨.failure, 0, []⟩, script)) ∧
    (∀ script, runPollUntilValid 0 script = runPollUntilValid 1 script ∧
      runPollUntilIssued 0 script = runPollUntilIssued 1 script) := by
  refine ⟨?_, ?_, by norm_num, ?_, ?_⟩
  · intro n h
    obtain ⟨m, rfl⟩ : ∃ m, n = 8 + m := ⟨n - 8, by omega⟩
    rw [List.replicate_add]
    simp [runPollUntilValid, pendingResp, jresp, Json.get, RAns.get, RAns.isObj,
      Json.isObj, asciiBytes_status, asciiBytes_pending, List.replicate_succ,
      runPollUntilValid_stop 256 _ (by omega)]
  · intro n h
    obtain ⟨m, rfl⟩ : ∃ m, n = 8 + m := ⟨n - 8, by omega⟩
    rw [List.replicate_add]
    simp [runPollUntilIssued, emptyResp, List.replicate_succ,
      runPollUntilIssued_stop 256 _ (by omega)]
  · intro retry script h
    exact ⟨runPollUntilValid_stop retry script h, runPollUntilIssued_stop retry script h⟩
  · intro script
    constructor <;> cases script <;> simp [runPollUntilValid, runPollUntilIssued]



set_option maxHeartbeats 2000000 in
/-- C2 at the disagreeing input: when the agreement response carries status
exactly 400, the engine still restarts the new-authz step and the run
succeeds, where the claim's 200..399 window makes it terminal invalid. -/
theorem tos_restart_at_status_400 :
    (runAuthorizeDomain 2 initialState
      (profileScript ++ [authz403, agreeResp 400] ++ profileScript ++ authzTail)).out
      = Outcome.success (.json validAns) ∧
    (runAuthorizeDomain 2 initialState
      (profileScript ++ [authz403, agreeResp 400] ++ profileScript ++ authzTail)).out
      ≠ Outcome.failure := by
  constructor <;>
    simp [runAuthorizeDomain, runGetProfile, runGetRegistration, runPollUntilValid,
      profileScript, dirResp, newregResp, profileResp, authz403, agreeResp, authzTail,
      authzOK, acceptResp, validResp, validAns, chalHttp, jresp, initialState,
      hdr, getTosLink, findTos, selectChallenge,
      Json.get, RAns.get, RAns.isObj, Json.isObj,
      asciiBytes_status, asciiBytes_valid, asciiBytes_pending, asciiBytes_challenges,
      asciiBytes_type, asciiBytes_http_01, asciiBytes_key]

set_option maxHeartbeats 4000000 in
/-- C2 as the code has it: the 403 recovery restarts exactly when the
agreement status lies in 200..400 inclusive (not 200..399), agree_tos is
called with the cached TOS link, an unsuccessful agreement terminates the run
unsuccessfully, and the recursion is not bounded to one TOS cycle: a script
forcing two cycles still terminates successfully with two agreement calls. -/
theorem authorizeDomain_tos_recovery :
    (∀ s : Int, (runAuthorizeDomain 2 initialState
        (profileScript ++ [authz403, agreeResp s] ++ profileScript ++ authzTail)).out
      = if 200 ≤ s ∧ s ≤ 400 then Outcome.success (.json validAns) else Outcome.failure) ∧
    (runAuthorizeDomain 2 initialState
        (profileScript ++ [authz403, agreeResp 200] ++ profileScript ++ authzTail)).agreeCalls
      = [some "https://ca/tos"] ∧
    (runAuthorizeDomain 1 initialState
        (profileScript ++ [authz403, agreeResp 403])).out = Outcome.failure ∧
    (runAuthorizeDomain 3 initialState
        (profileScript ++ [authz403, agreeResp 200] ++ profileScript ++ [authz403, agreeResp 200]
          ++ profileScript ++ authzTail)).out = Outcome.success (.json validAns) ∧
    (runAuthorizeDomain 3 initialState
        (profileScript ++ [authz403, agreeResp 200] ++ profileScript ++ [authz403, agreeResp 200]
          ++ profileScript ++ authzTail)).agreeCalls
      = [some "https://ca/tos", some "https://ca/tos"] := by
  refine ⟨?_, ?_, ?_, ?_, ?_⟩
  · intro s
    by_cases hs : 200 ≤ s ∧ s ≤ 400 <;>
      simp [runAuthorizeDomain, runGetProfile, runGetRegistration, runPollUntilValid,
        profileScript, dirResp, newregResp, profileResp, authz403, agreeResp, authzTail,
        authzOK, acceptResp, validResp, validAns, chalHttp, jresp, initialState,
        hdr, getTosLink, findTos, selectChallenge, Json.get, RAns.get, RAns.isObj,
        Json.isObj, asciiBytes_status, asciiBytes_valid, asciiBytes_pending,
        asciiBytes_challenges, asciiBytes_type, asciiBytes_http_01, asciiBytes_key, hs]
  · simp [runAuthorizeDomain, runGetProfile, runGetRegistration, runPollUntilValid,
      profileScript, dirResp, newregResp, profileResp, authz403, agreeResp, authzTail,
      authzOK, acceptResp, validResp, validAns, chalHttp, jresp, initialState,
      hdr, getTosLink, findTos, selectChallenge, Json.get, RAns.get, RAns.isObj,
      Json.isObj, asciiBytes_status, asciiBytes_valid, asciiBytes_pending,
      asciiBytes_challenges, asciiBytes_type, asciiBytes_http_01, asciiBytes_key]
  · simp [runAuthorizeDomain, runGetProfile, runGetRegistration,
      profileScript, dirResp, newregResp, profileResp, authz403, agreeResp, jresp,
      initialState, hdr, getTosLink, findTos, Json.get, RAns.get, RAns.isObj,
      Json.isObj, asciiBytes_key]
  · simp [runAuthorizeDomain, runGetProfile, runGetRegistration, runPollUntilValid,
      profileScript, dirResp, newregResp, profileResp, authz403, agreeResp, authzTail,
      authzOK, acceptResp, validResp, validAns, chalHttp, jresp, initialState,
      hdr, getTosLink, findTos, selectChallenge, Json.get, RAns.get, RAns.isObj,
      Json.isObj, asciiBytes_status, asciiBytes_valid, asciiBytes_pending,
      asciiBytes_challenges, asciiBytes_type, asciiBytes_http_01, asciiBytes_key]
  · simp [runAuthorizeDomain, runGetProfile, runGetRegistration, runPollUntilValid,
      profileScript, dirResp, newregResp, profileResp, authz403, agreeResp, authzTail,
      authzOK, acceptResp, validResp, validAns, chalHttp, jresp, initialState,
      hdr, getTosLink, findTos, selectChallenge, Json.get, RAns.get, RAns.isObj,
      Json.isObj, asciiBytes_status, asciiBytes_valid, asciiBytes_pending,
      asciiBytes_challenges, asciiBytes_type, asciiBytes_http_01, asciiBytes_key]



/-- C7 at the disagreeing input: a createAccount run against a 201 response
with a location header succeeds, yet its request trace is the single
new_registration POST; no get_directory request occurs, where the claim says
the call sequences get_directory first. -/
theorem createAccount_no_directory_fetch :
    runCreateAccount "admin@example.com" initialState [newregResp] =
      some (some "https://ca/reg/1", { initialState with regLink := some "https://ca/reg/1" },
        [], [Req.post none (createAccountPayload "admin@example.com")]) ∧
    [Req.post none (createAccountPayload "admin@example.com")].all
      (fun rq => ! rq.isGet) = true := by
  constructor
  · simp [runCreateAccount, initialState, newregResp, jresp, hdr, RAns.get, Json.get]
  · simp [Req.isGet]

/-- C7 as the code has it: createAccount issues exactly one request, the
new_registration POST to the cached new-reg directory entry with the mailto
contact payload (no get_directory request: the CLI performs the directory
lookup before calling createAccount), succeeds if and only if the response
has status 201 with a location header, and then returns that location and
caches it as the registration link; otherwise it reports failure and leaves
the state unchanged. -/
theorem createAccount_single_registration :
    ∀ (email : String) (st : AcmeState) (r : HResp) (rest : List HResp),
      ∃ res st2 tr, runCreateAccount email st (r :: rest) = some (res, st2, rest, tr) ∧
        tr = [Req.post (st.directory.get (asciiBytes "new-reg")) (createAccountPayload email)] ∧
        tr.all (fun rq => ! rq.isGet) = true ∧
        (res.isSome ↔ r.statusCode = 201 ∧ (hdr r "location").isSome) ∧
        (∀ loc, r.statusCode = 201 → hdr r "location" = some loc →
          res = some loc ∧ st2.regLink = some loc) ∧
        (¬(r.statusCode = 201 ∧ (hdr r "location").isSome) → res = none ∧ st2 = st) := by
  intro email st r rest
  by_cases h201 : r.statusCode = 201
  · cases hloc : hdr r "location" with
    | some loc =>
      refine ⟨some loc, { st with regLink := some loc },
        [Req.post (st.directory.get (asciiBytes "new-reg")) (createAccountPayload email)],
        ?_, rfl, by simp [Req.isGet], by simp [h201, hloc], ?_, ?_⟩
      · simp [runCreateAccount, h201, hloc]
      · intro l _ hl
        injection hl with h
        subst h
        exact ⟨rfl, rfl⟩
      · intro hc
        exact absurd ⟨h201, by simp [hloc]⟩ hc
    | none =>
      refine ⟨none, st,
        [Req.post (st.directory.get (asciiBytes "new-reg")) (createAccountPayload email)],
        ?_, rfl, by simp [Req.isGet], by simp [hloc], ?_, fun _ => ⟨rfl, rfl⟩⟩
      · simp [runCreateAccount, h201, hloc]
      · intro l _ hl
        simp at hl
  · refine ⟨none, st,
      [Req.post (st.directory.get (asciiBytes "new-reg")) (createAccountPayload email)],
      ?_, rfl, by simp [Req.isGet], by simp [h201], ?_, fun _ => ⟨rfl, rfl⟩⟩
    · simp [runCreateAccount, h201]
    · intro l h hl
      exact absurd h h201

end Acme
